import Mathlib

/-!
# Site analyser: the page-analysis engine

A shallow embedding of `service.go` and `type.go`: the tree walk (`traverse`,
`analyseDOM`) with its detectors (`isHeadingTag`, `isTitleTag`, `isLinkTag`,
`isLoginForm`), the doctype scan (`extractHTMLVersion`), the fetch wrapper
(`ReadPageContent`) and the address check (`ValidateURL`), followed by theorems
about them.

Modelling conventions.

* Go strings are modelled by `String` (valid UTF-8 text); `len` is the length in
  bytes and indexing reads a byte of the UTF-8 encoding, as in Go.
* `strings.ToLower` maps every code point as `unicode.ToLower` does: `A`..`Z` to
  `a`..`z`, and the code points outside ASCII by the case table of the Unicode
  character database (`caseRanges`), so that U+0130 lower-cases to `i` and U+212A
  to `k` as in Go.
* Go `int` is modelled by `Int`.  Every counter of the walk is bounded by the number
  of nodes of the tree, so 64-bit wrap-around is out of reach.
* A Go `error` is modelled by its message.  `(T, error)` becomes `Except String T`.
* `html.Node` with its sibling pointers becomes a rose tree; `n.FirstChild` is the
  head of the list of children and following `NextSibling` walks that list.
* The standard library and the network are parameters (`Lib`): address parsing and
  resolution, the HTTP client, the HTML parser and tokenizer.  The network is
  threaded as an explicit state `σ`, so a probe may answer differently each time.
* The patterns given to `regexp.MustCompile` are written as Mathlib regular
  expressions over `Char` and matched by derivatives: anywhere in the text for a
  pattern without anchors, on the whole text for a pattern between `^` and `$`.
-/

namespace SiteAnalyser

/-! ## Strings -/

/-- The upper-case entries of Go `unicode.CaseRanges` outside ASCII, read for the
lower case: `(lo, hi, stride, delta)` says that every `stride`-th code point from `lo`
to `hi` has its lower case `delta` code points further.  Among them U+0130 goes to
`i` and U+212A to `k`; every other entry stays outside ASCII. -/
def caseRanges : List (Nat × Nat × Nat × Int) :=
  [(0x00C0, 0x00D6, 1, 32), (0x00D8, 0x00DE, 1, 32), (0x0100, 0x012E, 2, 1),
   (0x0130, 0x0130, 1, -199), (0x0132, 0x0136, 2, 1), (0x0139, 0x0147, 2, 1),
   (0x014A, 0x0176, 2, 1), (0x0178, 0x0178, 1, -121), (0x0179, 0x017D, 2, 1),
   (0x0181, 0x0181, 1, 210), (0x0182, 0x0184, 2, 1), (0x0186, 0x0186, 1, 206),
   (0x0187, 0x0187, 1, 1), (0x0189, 0x018A, 1, 205), (0x018B, 0x018B, 1, 1),
   (0x018E, 0x018E, 1, 79), (0x018F, 0x018F, 1, 202), (0x0190, 0x0190, 1, 203),
   (0x0191, 0x0191, 1, 1), (0x0193, 0x0193, 1, 205), (0x0194, 0x0194, 1, 207),
   (0x0196, 0x0196, 1, 211), (0x0197, 0x0197, 1, 209), (0x0198, 0x0198, 1, 1),
   (0x019C, 0x019C, 1, 211), (0x019D, 0x019D, 1, 213), (0x019F, 0x019F, 1, 214),
   (0x01A0, 0x01A4, 2, 1), (0x01A6, 0x01A6, 1, 218), (0x01A7, 0x01A7, 1, 1),
   (0x01A9, 0x01A9, 1, 218), (0x01AC, 0x01AC, 1, 1), (0x01AE, 0x01AE, 1, 218),
   (0x01AF, 0x01AF, 1, 1), (0x01B1, 0x01B2, 1, 217), (0x01B3, 0x01B5, 2, 1),
   (0x01B7, 0x01B7, 1, 219), (0x01B8, 0x01B8, 1, 1), (0x01BC, 0x01BC, 1, 1),
   (0x01C4, 0x01C4, 1, 2), (0x01C5, 0x01C5, 1, 1), (0x01C7, 0x01C7, 1, 2),
   (0x01C8, 0x01C8, 1, 1), (0x01CA, 0x01CA, 1, 2), (0x01CB, 0x01DB, 2, 1),
   (0x01DE, 0x01EE, 2, 1), (0x01F1, 0x01F1, 1, 2), (0x01F2, 0x01F4, 2, 1),
   (0x01F6, 0x01F6, 1, -97), (0x01F7, 0x01F7, 1, -56), (0x01F8, 0x021E, 2, 1),
   (0x0220, 0x0220, 1, -130), (0x0222, 0x0232, 2, 1), (0x023A, 0x023A, 1, 10795),
   (0x023B, 0x023B, 1, 1), (0x023D, 0x023D, 1, -163), (0x023E, 0x023E, 1, 10792),
   (0x0241, 0x0241, 1, 1), (0x0243, 0x0243, 1, -195), (0x0244, 0x0244, 1, 69),
   (0x0245, 0x0245, 1, 71), (0x0246, 0x024E, 2, 1), (0x0370, 0x0372, 2, 1),
   (0x0376, 0x0376, 1, 1), (0x037F, 0x037F, 1, 116), (0x0386, 0x0386, 1, 38),
   (0x0388, 0x038A, 1, 37), (0x038C, 0x038C, 1, 64), (0x038E, 0x038F, 1, 63),
   (0x0391, 0x03A1, 1, 32), (0x03A3, 0x03AB, 1, 32), (0x03CF, 0x03CF, 1, 8),
   (0x03D8, 0x03EE, 2, 1), (0x03F4, 0x03F4, 1, -60), (0x03F7, 0x03F7, 1, 1),
   (0x03F9, 0x03F9, 1, -7), (0x03FA, 0x03FA, 1, 1), (0x03FD, 0x03FF, 1, -130),
   (0x0400, 0x040F, 1, 80), (0x0410, 0x042F, 1, 32), (0x0460, 0x0480, 2, 1),
   (0x048A, 0x04BE, 2, 1), (0x04C0, 0x04C0, 1, 15), (0x04C1, 0x04CD, 2, 1),
   (0x04D0, 0x052E, 2, 1), (0x0531, 0x0556, 1, 48), (0x10A0, 0x10C5, 1, 7264),
   (0x10C7, 0x10C7, 1, 7264), (0x10CD, 0x10CD, 1, 7264), (0x13A0, 0x13EF, 1, 38864),
   (0x13F0, 0x13F5, 1, 8), (0x1C90, 0x1CBA, 1, -3008), (0x1CBD, 0x1CBF, 1, -3008),
   (0x1E00, 0x1E94, 2, 1), (0x1E9E, 0x1E9E, 1, -7615), (0x1EA0, 0x1EFE, 2, 1),
   (0x1F08, 0x1F0F, 1, -8), (0x1F18, 0x1F1D, 1, -8), (0x1F28, 0x1F2F, 1, -8),
   (0x1F38, 0x1F3F, 1, -8), (0x1F48, 0x1F4D, 1, -8), (0x1F59, 0x1F5F, 2, -8),
   (0x1F68, 0x1F6F, 1, -8), (0x1F88, 0x1F8F, 1, -8), (0x1F98, 0x1F9F, 1, -8),
   (0x1FA8, 0x1FAF, 1, -8), (0x1FB8, 0x1FB9, 1, -8), (0x1FBA, 0x1FBB, 1, -74),
   (0x1FBC, 0x1FBC, 1, -9), (0x1FC8, 0x1FCB, 1, -86), (0x1FCC, 0x1FCC, 1, -9),
   (0x1FD8, 0x1FD9, 1, -8), (0x1FDA, 0x1FDB, 1, -100), (0x1FE8, 0x1FE9, 1, -8),
   (0x1FEA, 0x1FEB, 1, -112), (0x1FEC, 0x1FEC, 1, -7), (0x1FF8, 0x1FF9, 1, -128),
   (0x1FFA, 0x1FFB, 1, -126), (0x1FFC, 0x1FFC, 1, -9), (0x2126, 0x2126, 1, -7517),
   (0x212A, 0x212A, 1, -8383), (0x212B, 0x212B, 1, -8262), (0x2132, 0x2132, 1, 28),
   (0x2160, 0x216F, 1, 16), (0x2183, 0x2183, 1, 1), (0x24B6, 0x24CF, 1, 26),
   (0x2C00, 0x2C2F, 1, 48), (0x2C60, 0x2C60, 1, 1), (0x2C62, 0x2C62, 1, -10743),
   (0x2C63, 0x2C63, 1, -3814), (0x2C64, 0x2C64, 1, -10727), (0x2C67, 0x2C6B, 2, 1),
   (0x2C6D, 0x2C6D, 1, -10780), (0x2C6E, 0x2C6E, 1, -10749), (0x2C6F, 0x2C6F, 1, -10783),
   (0x2C70, 0x2C70, 1, -10782), (0x2C72, 0x2C72, 1, 1), (0x2C75, 0x2C75, 1, 1),
   (0x2C7E, 0x2C7F, 1, -10815), (0x2C80, 0x2CE2, 2, 1), (0x2CEB, 0x2CED, 2, 1),
   (0x2CF2, 0x2CF2, 1, 1), (0xA640, 0xA66C, 2, 1), (0xA680, 0xA69A, 2, 1),
   (0xA722, 0xA72E, 2, 1), (0xA732, 0xA76E, 2, 1), (0xA779, 0xA77B, 2, 1),
   (0xA77D, 0xA77D, 1, -35332), (0xA77E, 0xA786, 2, 1), (0xA78B, 0xA78B, 1, 1),
   (0xA78D, 0xA78D, 1, -42280), (0xA790, 0xA792, 2, 1), (0xA796, 0xA7A8, 2, 1),
   (0xA7AA, 0xA7AA, 1, -42308), (0xA7AB, 0xA7AB, 1, -42319), (0xA7AC, 0xA7AC, 1, -42315),
   (0xA7AD, 0xA7AD, 1, -42305), (0xA7AE, 0xA7AE, 1, -42308), (0xA7B0, 0xA7B0, 1, -42258),
   (0xA7B1, 0xA7B1, 1, -42282), (0xA7B2, 0xA7B2, 1, -42261), (0xA7B3, 0xA7B3, 1, 928),
   (0xA7B4, 0xA7C2, 2, 1), (0xA7C4, 0xA7C4, 1, -48), (0xA7C5, 0xA7C5, 1, -42307),
   (0xA7C6, 0xA7C6, 1, -35384), (0xA7C7, 0xA7C9, 2, 1), (0xA7D0, 0xA7D0, 1, 1),
   (0xA7D6, 0xA7D8, 2, 1), (0xA7F5, 0xA7F5, 1, 1), (0xFF21, 0xFF3A, 1, 32),
   (0x10400, 0x10427, 1, 40), (0x104B0, 0x104D3, 1, 40), (0x10570, 0x10594, 2, 39),
   (0x10571, 0x1057A, 1, 39), (0x1057D, 0x1058A, 1, 39), (0x1058D, 0x10592, 1, 39),
   (0x10595, 0x10595, 1, 39), (0x10C80, 0x10CB2, 1, 64), (0x118A0, 0x118BF, 1, 32),
   (0x16E40, 0x16E5F, 1, 32), (0x1E900, 0x1E921, 1, 34)]

/-- The delta of the first entry of a range table that holds the code point `r`. -/
def lowerDelta : List (Nat × Nat × Nat × Int) → Nat → Option Int
  | [], _ => none
  | (lo, hi, stride, delta) :: rest, r =>
    if lo ≤ r ∧ r ≤ hi ∧ (r - lo) % stride = 0 then some delta else lowerDelta rest r

/-- Go `unicode.ToLower`: the ASCII letters directly, any other code point through
the case table. -/
def unicode.ToLower (c : Char) : Char :=
  if c.toNat < 128 then
    if 65 ≤ c.toNat ∧ c.toNat ≤ 90 then Char.ofNat (c.toNat + 32) else c
  else
    match lowerDelta caseRanges c.toNat with
    | some delta => Char.ofNat ((c.toNat : Int) + delta).toNat
    | none => c

/-- Go `strings.ToLower`: every code point mapped by `unicode.ToLower`. -/
def strings.ToLower (s : String) : String := ⟨s.data.map unicode.ToLower⟩

/-- Go `strings.HasPrefix`. -/
def strings.HasPrefix (s pre : String) : Bool := pre.data.isPrefixOf s.data

/-- Substring search on character lists: some suffix of the text starts with `sub`. -/
def containsChars : List Char → List Char → Bool
  | [], sub => sub.isPrefixOf []
  | c :: cs, sub => sub.isPrefixOf (c :: cs) || containsChars cs sub

/-- Go `strings.Contains`. -/
def strings.Contains (s substr : String) : Bool := containsChars s.data substr.data

/-- Go `unicode.IsSpace`: the characters with the Unicode White_Space property. -/
def unicode.IsSpace (c : Char) : Bool :=
  let r := c.toNat
  r == 0x09 || r == 0x0A || r == 0x0B || r == 0x0C || r == 0x0D || r == 0x20 ||
  r == 0x85 || r == 0xA0 || r == 0x1680 || (0x2000 ≤ r && r ≤ 0x200A) ||
  r == 0x2028 || r == 0x2029 || r == 0x202F || r == 0x205F || r == 0x3000

/-- Go `strings.TrimSpace`: drops leading and trailing white space. -/
def strings.TrimSpace (s : String) : String :=
  ⟨((s.data.dropWhile unicode.IsSpace).reverse.dropWhile unicode.IsSpace).reverse⟩

/-- Go `len(s)` on a string: the number of bytes. -/
def len (s : String) : Nat := s.utf8ByteSize

/-- The bytes of a Go string. -/
def bytes (s : String) : List UInt8 := s.data.flatMap String.utf8EncodeChar

/-- Go `s[i]` on a string: the byte at index `i` (the source indexes in range only). -/
def byteAt (s : String) (i : Nat) : UInt8 := (bytes s).getD i 0

/-- Go `string(b)` for a byte `b`: the text made of the code point `b`. -/
def byteToString (b : UInt8) : String := String.singleton (Char.ofNat b.toNat)

/-- Value of a run of decimal digits, most significant first; `none` on any other character. -/
def digitsValue : List Char → Nat → Option Nat
  | [], acc => some acc
  | c :: cs, acc =>
    if 48 ≤ c.toNat ∧ c.toNat ≤ 57 then digitsValue cs (acc * 10 + (c.toNat - 48)) else none

/-- Go `strconv.Atoi`: an optional sign and at least one decimal digit, within the
64-bit range; `none` stands for a non-nil error. -/
def strconv.Atoi (s : String) : Option Int :=
  let body : List Char :=
    match s.data with
    | '-' :: rest => rest
    | '+' :: rest => rest
    | cs => cs
  let negative : Bool :=
    match s.data with
    | '-' :: _ => true
    | _ => false
  match body with
  | [] => none
  | c :: cs =>
    match digitsValue (c :: cs) 0 with
    | none => none
    | some v =>
      let n : Int := if negative then -(v : Int) else (v : Int)
      if -(2 : Int) ^ 63 ≤ n ∧ n < (2 : Int) ^ 63 then some n else none

/-! ## Regular expressions -/

/-- The characters a pattern character matches under the flag `(?i)`: its simple
case-folding orbit (for ASCII pattern characters). -/
def foldOrbit (c : Char) : List Char :=
  if c = 'k' ∨ c = 'K' then ['k', 'K', Char.ofNat 0x212A]
  else if c = 's' ∨ c = 'S' then ['s', 'S', Char.ofNat 0x17F]
  else if c.isLower then [c, c.toUpper]
  else if c.isUpper then [c.toLower, c]
  else [c]

/-- A character class given by the list of its members. -/
def oneOf : List Char → RegularExpression Char
  | [] => 0
  | c :: cs => RegularExpression.char c + oneOf cs

/-- The pattern `(?i)lit` for a literal text `lit`. -/
def foldLiteral : List Char → RegularExpression Char
  | [] => 1
  | c :: cs => oneOf (foldOrbit c) * foldLiteral cs

/-- Go `(*Regexp).MatchString` for a pattern without anchors: some substring of
the text matches the pattern. -/
def regexp.MatchString (re : RegularExpression Char) (s : String) : Bool :=
  s.data.tails.any (fun t => t.inits.any (fun m => re.rmatch m))

/-- The pattern `(?i)html 4\.01`. -/
def reHTML401 : RegularExpression Char := foldLiteral "html 4.01".data

/-- The pattern `(?i)xhtml`. -/
def reXHTML : RegularExpression Char := foldLiteral "xhtml".data

/-! ## Data model (`type.go` and the library types the code reads) -/

/-- Go `html.NodeType`. -/
inductive NodeType where
  | ErrorNode | TextNode | DocumentNode | ElementNode | CommentNode | DoctypeNode | RawNode
deriving DecidableEq

/-- Go `html.Attribute`. -/
structure Attribute where
  Namespace : String
  Key : String
  Val : String
deriving DecidableEq

/-- Go `html.Node`: node type, data (the tag name of an element, the text of a text
node), attributes, and the children from `FirstChild` along `NextSibling`. -/
inductive Node where
  | mk (Typ : NodeType) (Data : String) (Attr : List Attribute) (children : List Node)

/-- Field `n.Type`. -/
def Node.Typ : Node → NodeType
  | .mk t _ _ _ => t

/-- Field `n.Data`. -/
def Node.Data : Node → String
  | .mk _ d _ _ => d

/-- Field `n.Attr`. -/
def Node.Attr : Node → List Attribute
  | .mk _ _ a _ => a

/-- The children of a node, first to last. -/
def Node.children : Node → List Node
  | .mk _ _ _ cs => cs

/-- Field `n.FirstChild` (`none` is the nil pointer). -/
def Node.FirstChild (n : Node) : Option Node := n.children.head?

/-- Go `html.TokenType`. -/
inductive TokenType where
  | ErrorToken | TextToken | StartTagToken | EndTagToken | SelfClosingTagToken
  | CommentToken | DoctypeToken
deriving DecidableEq

/-- Go `html.Token`, with the fields the code reads. -/
structure Token where
  Typ : TokenType
  Data : String
deriving DecidableEq

/-- Struct `Heading` of `type.go`. -/
structure Heading where
  Tag : String
  Level : Int
  Count : Int
deriving DecidableEq

/-- Struct `Links` of `type.go`. -/
structure Links where
  Inaccessible : Int
  External : Int
  Internal : Int
deriving DecidableEq

/-- Struct `DOMAnalysis` of `type.go`. -/
structure DOMAnalysis where
  Title : String
  Headings : List Heading
  Links : Links
  LoginForm : Bool
deriving DecidableEq

/-- Struct `PageAnalysis` of `type.go`. -/
structure PageAnalysis where
  DOMAnalysis : DOMAnalysis
  HTMLVersion : String
deriving DecidableEq

/-- Go `url.URL`, with the components of an address. -/
structure URL where
  Scheme : String
  Host : String
  Path : String
  RawQuery : String
  Fragment : String
deriving DecidableEq

/-- Go `http.Response`: the status code and what `io.ReadAll(resp.Body)` yields. -/
structure Response where
  StatusCode : Int
  Body : Except String String

/-- The standard library and the network, as used by `service.go`.  The state `σ`
is the state of the outside world; each request may read and change it. -/
structure Lib (σ : Type) where
  /-- Go `url.Parse`. -/
  urlParse : String → Except String URL
  /-- Go `base.ResolveReference(ref)`. -/
  ResolveReference : URL → URL → URL
  /-- Go `u.String()`. -/
  urlString : URL → String
  /-- Go `http.Head`. -/
  httpHead : String → σ → Except String Response × σ
  /-- Go `http.Get`. -/
  httpGet : String → σ → Except String Response × σ
  /-- Go `http.StatusText`. -/
  httpStatusText : Int → String
  /-- Go `html.Parse` on the bytes of a reader. -/
  htmlParse : String → Except String Node
  /-- The tokens `html.NewTokenizer` yields on the bytes of a reader; the end of the
  list is the end of the input. -/
  htmlTokens : String → List Token

/-- Go `map[int]int`: a partial map from keys to values. -/
abbrev IntMap : Type := Int → Option Int

/-- The empty map, `make(map[int]int)`. -/
def IntMap.empty : IntMap := fun _ => none

/-- Statement `m[k]++`: a missing key reads as zero. -/
def IntMap.incr (m : IntMap) (k : Int) : IntMap :=
  fun j => if j = k then some ((m k).getD 0 + 1) else m j

/-- Loop `for level, count := range child { m[level] += count }`.  The keys are
distinct, so the iteration order of the map does not matter. -/
def IntMap.merge (m child : IntMap) : IntMap :=
  fun j =>
    match child j with
    | some count => some ((m j).getD 0 + count)
    | none => m j

/-! ## The detectors of `service.go` -/

variable {σ : Type}

/-- Function `isHeadingTag` (`service.go`, lines 119-127). -/
def isHeadingTag (n : Node) : Int × Bool :=
  let tag := strings.ToLower n.Data
  if strings.HasPrefix tag "h" && len tag == 2 then
    match strconv.Atoi (byteToString (byteAt tag 1)) with
    | some level => if level ≥ 1 && level ≤ 6 then (level, true) else (0, false)
    | none => (0, false)
  else (0, false)

/-- Function `isTitleTag` (`service.go`, lines 129-136). -/
def isTitleTag (n : Node) : String × Bool :=
  if strings.ToLower n.Data == "title" && n.FirstChild.isSome then
    match n.FirstChild with
    | some c => if c.Typ = NodeType.TextNode then (c.Data, true) else ("", false)
    | none => ("", false)
  else ("", false)

/-- Condition `err != nil || resp.StatusCode >= 400` on the outcome of a request. -/
def requestFailed : Except String Response → Bool
  | .error _ => true
  | .ok resp => decide (resp.StatusCode ≥ 400)

/-- The loop over `n.Attr` of `isLinkTag` (`service.go`, lines 143-174): the first
attribute whose key is `href` decides; the result is `(isLink, isInternal, isWorking)`. -/
def isLinkTagAttrs (lib : Lib σ) (base : URL) : List Attribute → σ → (Bool × Bool × Bool) × σ
  | [], w => ((false, false, false), w)
  | attr :: rest, w =>
    if strings.ToLower attr.Key == "href" then
      let link := strings.TrimSpace attr.Val
      if link == "" || strings.HasPrefix link "#" then ((true, true, true), w)
      else
        match lib.urlParse link with
        | .error _ => ((true, false, false), w)
        | .ok linkURL =>
          let resolvedURL := lib.ResolveReference base linkURL
          let isInternal := resolvedURL.Host == base.Host || resolvedURL.Host == ""
          let r1 := lib.httpHead (lib.urlString resolvedURL) w
          if requestFailed r1.1 then
            let r2 := lib.httpGet (lib.urlString resolvedURL) r1.2
            if requestFailed r2.1 then ((true, isInternal, false), r2.2)
            else ((true, isInternal, true), r2.2)
          else ((true, isInternal, true), r1.2)
    else isLinkTagAttrs lib base rest w

/-- Function `isLinkTag` (`service.go`, lines 138-175). -/
def isLinkTag (lib : Lib σ) (n : Node) (base : URL) (w : σ) : (Bool × Bool × Bool) × σ :=
  if strings.ToLower n.Data != "a" then ((false, false, false), w)
  else isLinkTagAttrs lib base n.Attr w

/-- The three variables `hasPassword`, `hasEmailOrUsername`, `hasSubmit` that the
closure `traverseForm` of `isLoginForm` updates. -/
structure FormFlags where
  hasPassword : Bool
  hasEmailOrUsername : Bool
  hasSubmit : Bool
deriving DecidableEq

/-- The inner loop `for _, a := range node.Attr` of `isLoginForm` (lines 200-212),
on the variable `hasEmailOrUsername`. -/
def hintLoop : List Attribute → Bool → Bool
  | [], h => h
  | a :: rest, h =>
    if strings.ToLower a.Key == "name" || strings.ToLower a.Key == "id" ||
        strings.ToLower a.Key == "placeholder" then
      let val := strings.ToLower a.Val
      if strings.Contains val "email" || strings.Contains val "username" ||
          strings.Contains val "login" || strings.Contains val "pass" ||
          strings.Contains val "phone" || strings.Contains val "mobile" then
        hintLoop rest true
      else hintLoop rest h
    else hintLoop rest h

/-- The loop `for _, attr := range node.Attr` of `isLoginForm` (lines 191-217) on
an `input` element whose attributes are `all`. -/
def inputLoop (all : List Attribute) : List Attribute → FormFlags → FormFlags
  | [], f => f
  | attr :: rest, f =>
    let attrKey := strings.ToLower attr.Key
    let attrVal := strings.ToLower attr.Val
    if attrKey == "type" then
      if attrVal == "password" then
        inputLoop all rest ⟨true, f.hasEmailOrUsername, f.hasSubmit⟩
      else if attrVal == "email" || attrVal == "text" then
        inputLoop all rest ⟨f.hasPassword, hintLoop all f.hasEmailOrUsername, f.hasSubmit⟩
      else if attrVal == "submit" || attrVal == "button" then
        inputLoop all rest ⟨f.hasPassword, f.hasEmailOrUsername, true⟩
      else inputLoop all rest f
    else inputLoop all rest f

/-- The part of the closure `traverseForm` that looks at the node itself (lines 188-223). -/
def formNode (node : Node) (f : FormFlags) : FormFlags :=
  if node.Typ = NodeType.ElementNode then
    let f1 := if strings.ToLower node.Data == "input" then inputLoop node.Attr node.Attr f else f
    if strings.ToLower node.Data == "button" then ⟨f1.hasPassword, f1.hasEmailOrUsername, true⟩
    else f1
  else f

mutual
/-- The closure `traverseForm` of `isLoginForm` (lines 187-227). -/
def traverseForm : Node → FormFlags → FormFlags
  | .mk t d a cs, f => traverseFormChildren cs (formNode (.mk t d a cs) f)
/-- The loop over the children in `traverseForm` (lines 224-226). -/
def traverseFormChildren : List Node → FormFlags → FormFlags
  | [], f => f
  | c :: cs, f => traverseFormChildren cs (traverseForm c f)
end

/-- Function `isLoginForm` (`service.go`, lines 177-231). -/
def isLoginForm (n : Node) : Bool :=
  if strings.ToLower n.Data != "form" then false
  else
    let f := traverseForm n ⟨false, false, false⟩
    f.hasPassword && (f.hasEmailOrUsername || f.hasSubmit)

/-! ## The tree walk -/

/-- The block `Check current node` of `traverse` (lines 17-51): the fresh map and
tally of this call after the node itself has been looked at, the updated
`domResults`, and the state of the network after the probes of the node. -/
def checkNode (lib : Lib σ) (n : Node) (domResults : DOMAnalysis) (url : URL) (w : σ) :
    (IntMap × Links) × DOMAnalysis × σ :=
  let headingCounts : IntMap := IntMap.empty
  let links : Links := ⟨0, 0, 0⟩
  if n.Typ = NodeType.ElementNode then
    let headingCounts :=
      if (isHeadingTag n).2 then headingCounts.incr (isHeadingTag n).1 else headingCounts
    let domResults : DOMAnalysis :=
      if (isTitleTag n).2 then
        ⟨(isTitleTag n).1, domResults.Headings, domResults.Links, domResults.LoginForm⟩
      else domResults
    let r := isLinkTag lib n url w
    let links : Links :=
      if r.1.1 then
        let links : Links :=
          if r.1.2.1 then ⟨links.Inaccessible, links.External, links.Internal + 1⟩
          else ⟨links.Inaccessible, links.External + 1, links.Internal⟩
        if !r.1.2.2 then ⟨links.Inaccessible + 1, links.External, links.Internal⟩ else links
      else links
    let domResults : DOMAnalysis :=
      if strings.ToLower n.Data == "form" then
        if isLoginForm n then
          ⟨domResults.Title, domResults.Headings, domResults.Links, true⟩
        else domResults
      else domResults
    ((headingCounts, links), domResults, r.2)
  else ((headingCounts, links), domResults, w)

/-- The statements of the loop body of `traverse` that merge the result of a child
(lines 56-63). -/
def mergeChild (acc child : IntMap × Links) : IntMap × Links :=
  (acc.1.merge child.1,
    ⟨acc.2.Inaccessible + child.2.Inaccessible, acc.2.External + child.2.External,
      acc.2.Internal + child.2.Internal⟩)

mutual
/-- Function `traverse` (`service.go`, lines 16-67).  The shared `domResults` and
the network state are passed in and returned. -/
def traverse (lib : Lib σ) (url : URL) : Node → DOMAnalysis → σ → (IntMap × Links) × DOMAnalysis × σ
  | .mk t d a cs, domResults, w =>
    let r := checkNode lib (.mk t d a cs) domResults url w
    traverseChildren lib url cs r.1 r.2.1 r.2.2
/-- The loop `for c := n.FirstChild; c != nil; c = c.NextSibling` of `traverse`
(lines 54-64), from the child list `cs` on. -/
def traverseChildren (lib : Lib σ) (url : URL) :
    List Node → IntMap × Links → DOMAnalysis → σ → (IntMap × Links) × DOMAnalysis × σ
  | [], acc, domResults, w => (acc, domResults, w)
  | c :: cs, acc, domResults, w =>
    let r := traverse lib url c domResults w
    traverseChildren lib url cs (mergeChild acc r.1) r.2.1 r.2.2
end

/-- Go `fmt.Sprintf("h%d", level)`. -/
def headingTag (level : Int) : String := "h" ++ toString level

/-- The loop `for level := 1; level <= 6; level++` of `analyseDOM` (lines 81-89),
over the levels still to visit. -/
def collectHeadings (headingCounts : IntMap) : List Int → List Heading → List Heading
  | [], hs => hs
  | level :: rest, hs =>
    match headingCounts level with
    | some count => collectHeadings headingCounts rest (hs ++ [⟨headingTag level, level, count⟩])
    | none => collectHeadings headingCounts rest hs

/-- Function `analyseDOM` (`service.go`, lines 69-92); `parsed` is what
`html.Parse(reader)` returned. -/
def analyseDOM (lib : Lib σ) (parsed : Except String Node) (baseUrl : URL) (w : σ) :
    Except String DOMAnalysis × σ :=
  let domResults : DOMAnalysis := ⟨"", [], ⟨0, 0, 0⟩, false⟩
  match parsed with
  | .error err => (.error ("error parsing HTML: " ++ err), w)
  | .ok n =>
    let r := traverse lib baseUrl n domResults w
    let domResults := r.2.1
    let headings := collectHeadings r.1.1 [1, 2, 3, 4, 5, 6] domResults.Headings
    (.ok ⟨domResults.Title, headings, r.1.2, domResults.LoginForm⟩, r.2.2)

/-! ## The doctype scan and the fetch -/

/-- Function `extractHTMLVersion` (`service.go`, lines 94-117), on the tokens the
tokenizer yields.  When the list is used up the tokenizer is at the end of its
input, where `Next` returns `ErrorToken`. -/
def extractHTMLVersion : List Token → String
  | [] => "No Doctype Found"
  | tok :: rest =>
    match tok.Typ with
    | TokenType.DoctypeToken =>
      let doctype := tok.Data
      if doctype == "html" then "HTML 5"
      else if regexp.MatchString reHTML401 doctype then "HTML 4.01"
      else if regexp.MatchString reXHTML doctype then "XHTML"
      else "Unknown Doctype: " ++ doctype
    | TokenType.ErrorToken => "No Doctype Found"
    | _ => extractHTMLVersion rest

/-- The address `ReadPageContent` fetches (lines 243-246). -/
def normaliseURL (urlStr : String) : String :=
  if !strings.HasPrefix urlStr "http://" && !strings.HasPrefix urlStr "https://" then
    "https://" ++ urlStr
  else urlStr

/-- The error `ReadPageContent` returns for a transport failure with message `err`
of the fetch of `urlStr` (lines 249-262). -/
def fetchError (urlStr err : String) : String :=
  if strings.Contains err "no such host" then "domain not found: " ++ urlStr
  else if strings.Contains err "connection refused" then
    "connection refused: server is not responding"
  else if strings.Contains err "timeout" then
    "connection timeout: server took too long to respond"
  else "unknown error while fetching URL: " ++ err

/-- The error `ReadPageContent` returns for a response with an error status (lines 266-272). -/
def statusError (lib : Lib σ) (code : Int) : String :=
  let statusText := lib.httpStatusText code
  let statusText := if statusText == "" then "Unknown Status" else statusText
  "HTTP error: received status code " ++ toString code ++ " (" ++ statusText ++ ")"

/-- Function `ReadPageContent` (`service.go`, lines 240-290).  `Except.error` is the
result `(nil, err)`.  The source drops the error of its own `url.Parse(urlStr)`;
`http.Get` has parsed the same text before, so that branch is not reached after a
successful fetch, and the model answers it with an error. -/
def ReadPageContent (lib : Lib σ) (urlStr : String) (w : σ) : Except String PageAnalysis × σ :=
  let urlStr := normaliseURL urlStr
  let got := lib.httpGet urlStr w
  match got.1 with
  | .error err => (.error (fetchError urlStr err), got.2)
  | .ok resp =>
    if resp.StatusCode ≥ 400 then (.error (statusError lib resp.StatusCode), got.2)
    else
      match resp.Body with
      | .error err => (.error ("error reading response body: " ++ err), got.2)
      | .ok bodyBytes =>
        let version := extractHTMLVersion (lib.htmlTokens bodyBytes)
        match lib.urlParse urlStr with
        | .error _ => (.error "nil base address", got.2)
        | .ok parsedUrl =>
          let da := analyseDOM lib (lib.htmlParse bodyBytes) parsedUrl got.2
          match da.1 with
          | .error err => (.error ("error analysing DOM: " ++ err), da.2)
          | .ok d => (.ok ⟨d, version⟩, da.2)

/-! ## The address check -/

/-- The pattern that matches exactly the text `lit`. -/
def literal : List Char → RegularExpression Char
  | [] => 1
  | c :: cs => RegularExpression.char c * literal cs

/-- The digits `0`..`9`, the class `\d`. -/
def digitChars : List Char := "0123456789".data

/-- The letters `a`..`z`. -/
def lowerChars : List Char := "abcdefghijklmnopqrstuvwxyz".data

/-- The letters `A`..`Z`. -/
def upperChars : List Char := "ABCDEFGHIJKLMNOPQRSTUVWXYZ".data

/-- The class `[\da-z\.-]`. -/
def hostChars : List Char := digitChars ++ lowerChars ++ ['.', '-']

/-- The class `[a-z\.]`. -/
def tldChars : List Char := lowerChars ++ ['.']

/-- The class `[\/\w \.-]`, where `\w` is `[0-9A-Za-z_]`. -/
def pathChars : List Char :=
  '/' :: (digitChars ++ upperChars ++ lowerChars ++ ['_']) ++ [' ', '.', '-']

/-- The part `(https?:\/\/)?` of the pattern of `ValidateURL`. -/
def reScheme : RegularExpression Char :=
  1 + literal "http".data * (1 + RegularExpression.char 's') * literal "://".data

/-- The part `([\da-z\.-]+)`. -/
def reHost : RegularExpression Char := oneOf hostChars * RegularExpression.star (oneOf hostChars)

/-- The part `([a-z\.]{2,6})`: two characters of the class and up to four more. -/
def reTld : RegularExpression Char :=
  oneOf tldChars * oneOf tldChars * (1 + oneOf tldChars) * (1 + oneOf tldChars) *
    (1 + oneOf tldChars) * (1 + oneOf tldChars)

/-- The part `([\/\w \.-]*)*`. -/
def rePath : RegularExpression Char :=
  RegularExpression.star (RegularExpression.star (oneOf pathChars))

/-- The pattern `(https?:\/\/)?([\da-z\.-]+)\.([a-z\.]{2,6})([\/\w \.-]*)*\/?` of
`ValidateURL`, without its anchors `^` and `$`. -/
def reValidateURL : RegularExpression Char :=
  reScheme * reHost * RegularExpression.char '.' * reTld * rePath *
    (1 + RegularExpression.char '/')

/-- Go `(*Regexp).MatchString` for a pattern `^re$`: the whole text matches `re`. -/
def regexp.MatchWhole (re : RegularExpression Char) (s : String) : Bool := re.rmatch s.data

/-- Function `ValidateURL` (`service.go`, lines 233-237). -/
def ValidateURL (urlStr : String) : Bool := regexp.MatchWhole reValidateURL urlStr

/-! ## Definitions used to state the properties

Two texts are equal *up to case* when they are equal after `strings.ToLower`, the
comparison the code makes: `TITLE` and `tİtle` (with U+0130) both equal `title` up
to case. -/

mutual
/-- The nodes of a tree in pre-order: a node, then its children from first to last. -/
def preorder : Node → List Node
  | .mk t d a cs => .mk t d a cs :: preorderList cs
/-- The nodes of a list of trees in pre-order. -/
def preorderList : List Node → List Node
  | [] => []
  | c :: cs => preorder c ++ preorderList cs
end

/-- One visit of the walk seen as a step on an accumulator: the node is checked and
its contribution is merged into the running result. -/
def walkStep (lib : Lib σ) (url : URL) (st : (IntMap × Links) × DOMAnalysis × σ) (n : Node) :
    (IntMap × Links) × DOMAnalysis × σ :=
  let r := checkNode lib n st.2.1 url st.2.2
  (mergeChild st.1 r.1, r.2.1, r.2.2)

/-- The body of `isHeadingTag` after the tag has been lower-cased. -/
def headingOfTag (tag : String) : Int × Bool :=
  if strings.HasPrefix tag "h" && len tag == 2 then
    match strconv.Atoi (byteToString (byteAt tag 1)) with
    | some level => if level ≥ 1 && level ≤ 6 then (level, true) else (0, false)
    | none => (0, false)
  else (0, false)

/-- The six heading tags and their levels. -/
def headingTable (tag : String) : Int × Bool :=
  if tag = "h1" then (1, true) else if tag = "h2" then (2, true)
  else if tag = "h3" then (3, true) else if tag = "h4" then (4, true)
  else if tag = "h5" then (5, true) else if tag = "h6" then (6, true) else (0, false)

/-- A node the walk counts at level `L`: an element on which `isHeadingTag` answers `L`. -/
def countsAt (L : Int) (n : Node) : Bool :=
  n.Typ == NodeType.ElementNode && ((isHeadingTag n).2 && (isHeadingTag n).1 == L)

/-- An element node whose tag equals `h<L>` up to case. -/
def isHeadingElement (L : Int) (n : Node) : Bool :=
  n.Typ == NodeType.ElementNode && strings.ToLower n.Data == headingTag L

/-- The number of elements of the tree whose tag equals `h<L>` up to case. -/
def headingElements (L : Int) (tree : Node) : Nat :=
  ((preorder tree).filter (isHeadingElement L)).length

/-- An element node whose tag is one of `h1` .. `h6` up to case. -/
def isAnyHeadingElement (n : Node) : Bool :=
  n.Typ == NodeType.ElementNode &&
    (["h1", "h2", "h3", "h4", "h5", "h6"].contains (strings.ToLower n.Data))

/-- The heading entry `analyseDOM` appends for a level present in the map. -/
def headingEntry (headingCounts : IntMap) (level : Int) : Option Heading :=
  (headingCounts level).map (fun count => ⟨headingTag level, level, count⟩)

/-- An element whose tag is `title` up to case (it lower-cases to `title` under
`strings.ToLower`) and whose first child is a text node. -/
def isTitleElement (n : Node) : Bool :=
  n.Typ == NodeType.ElementNode && strings.ToLower n.Data == "title" &&
    (match n.children with
      | c :: _ => c.Typ == NodeType.TextNode
      | [] => false)

/-- The text of the first child of a node (empty when there is no child). -/
def firstChildText (n : Node) : String :=
  match n.children with
  | c :: _ => c.Data
  | [] => ""

/-- An `input` element (tag up to case). -/
def isInput (n : Node) : Bool :=
  n.Typ == NodeType.ElementNode && strings.ToLower n.Data == "input"

/-- The node has an attribute `type` (key up to case) whose value, lower-cased, satisfies `p`. -/
def hasType (p : String → Bool) (n : Node) : Bool :=
  n.Attr.any (fun a => strings.ToLower a.Key == "type" && p (strings.ToLower a.Val))

/-- An attribute `name`, `id` or `placeholder` whose value contains, up to case, one
of the words `email`, `username`, `login`, `pass`, `phone`, `mobile`. -/
def isHintAttr (a : Attribute) : Bool :=
  (strings.ToLower a.Key == "name" || strings.ToLower a.Key == "id" ||
      strings.ToLower a.Key == "placeholder") &&
    (strings.Contains (strings.ToLower a.Val) "email" ||
      strings.Contains (strings.ToLower a.Val) "username" ||
      strings.Contains (strings.ToLower a.Val) "login" ||
      strings.Contains (strings.ToLower a.Val) "pass" ||
      strings.Contains (strings.ToLower a.Val) "phone" ||
      strings.Contains (strings.ToLower a.Val) "mobile")

/-- An `input` with type `password`. -/
def isPasswordInput (n : Node) : Bool := isInput n && hasType (fun v => v == "password") n

/-- An `input` with type `email` or `text` that carries an identity hint. -/
def isIdentityInput (n : Node) : Bool :=
  isInput n && hasType (fun v => v == "email" || v == "text") n && n.Attr.any isHintAttr

/-- An `input` with type `submit` or `button`, or a `button` element. -/
def isSubmitControl (n : Node) : Bool :=
  (isInput n && hasType (fun v => v == "submit" || v == "button") n) ||
    (n.Typ == NodeType.ElementNode && strings.ToLower n.Data == "button")

/-- A `form` element (tag up to case). -/
def isFormElement (n : Node) : Bool :=
  n.Typ == NodeType.ElementNode && strings.ToLower n.Data == "form"

/-- The login-form heuristic of the specification on the subtree of a form:
`hasPassword AND (hasIdentityHint OR hasSubmit)`. -/
def loginHeuristic (form : Node) : Bool :=
  (preorder form).any isPasswordInput &&
    ((preorder form).any isIdentityInput || (preorder form).any isSubmitControl)

/-- An `a` element (tag up to case) that carries an attribute whose key is `href` up to case. -/
def isAnchorWithHref (n : Node) : Bool :=
  n.Typ == NodeType.ElementNode && strings.ToLower n.Data == "a" &&
    n.Attr.any (fun a => strings.ToLower a.Key == "href")

/-- The invariant of a tally: no counter is negative and the inaccessible links are
among the counted ones. -/
def Links.Valid (k : Links) : Prop :=
  0 ≤ k.Inaccessible ∧ 0 ≤ k.External ∧ 0 ≤ k.Internal ∧ k.Inaccessible ≤ k.Internal + k.External

/-- The message of an error result, if the result is an error. -/
def errorMessage {α : Type} : Except String α → Option String
  | .error msg => some msg
  | .ok _ => none

/-- The first attribute of a node whose key is `href` up to case. -/
def firstHref (n : Node) : Option Attribute :=
  n.Attr.find? (fun a => strings.ToLower a.Key == "href")

/-- The first `href` of the node, trimmed, is empty or starts with `#`. -/
def isFragmentLink (n : Node) : Bool :=
  match firstHref n with
  | some a => strings.TrimSpace a.Val == "" || strings.HasPrefix (strings.TrimSpace a.Val) "#"
  | none => false

/-- An element whose tag is `title` up to case, whatever its children. -/
def isTitleTagged (n : Node) : Bool :=
  n.Typ == NodeType.ElementNode && strings.ToLower n.Data == "title"

mutual
/-- The second tree is the first with the children of any of its nodes reordered. -/
inductive Reordered : Node → Node → Prop
  | node (t : NodeType) (d : String) (a : List Attribute) {cs ds : List Node} :
      ReorderedList cs ds → Reordered (.mk t d a cs) (.mk t d a ds)
/-- The second list is a reordering of the first, each tree reordered in turn. -/
inductive ReorderedList : List Node → List Node → Prop
  | nil : ReorderedList [] []
  | cons {c d : Node} {cs ds : List Node} :
      Reordered c d → ReorderedList cs ds → ReorderedList (c :: cs) (d :: ds)
  | swap (a b : Node) (cs : List Node) : ReorderedList (a :: b :: cs) (b :: a :: cs)
  | trans {xs ys zs : List Node} :
      ReorderedList xs ys → ReorderedList ys zs → ReorderedList xs zs
end

/-- The outcome of a request depends on the address only, not on the state of the
network: the probe of an anchor depends on that anchor alone. -/
def Stateless (lib : Lib σ) : Prop :=
  ∀ (u : String) (w w1 : σ),
    (lib.httpHead u w).1 = (lib.httpHead u w1).1 ∧ (lib.httpGet u w).1 = (lib.httpGet u w1).1

/-- The count a histogram holds for a level: a missing key reads as zero. -/
def IntMap.value (m : IntMap) (k : Int) : Int := (m k).getD 0

/-- A quantity of a node that depends on its type, data and attributes only. -/
def IsLocal (f : Node → Int) : Prop :=
  ∀ (t : NodeType) (d : String) (a : List Attribute) (cs ds : List Node),
    f (.mk t d a cs) = f (.mk t d a ds)

/-- The text is a non-empty run of characters of `[\da-z\.-]`, a dot, 2 to 6
characters of `[a-z\.]` and then characters of `[\/\w \.-]` only. -/
def IsURLBody (r : List Char) : Prop :=
  ∃ host tld path : List Char, r = host ++ '.' :: tld ++ path ∧ host ≠ [] ∧
    (∀ c ∈ host, c ∈ hostChars) ∧ 2 ≤ tld.length ∧ tld.length ≤ 6 ∧
    (∀ c ∈ tld, c ∈ tldChars) ∧ ∀ c ∈ path, c ∈ pathChars

/-- The text begins with a non-empty run of characters of `[\da-z\.-]`, a dot and two
characters of `[a-z\.]`; `seen` tells that a character of the run has been read. -/
def beginsCoreFrom : Bool → List Char → Bool
  | _, [] => false
  | seen, c :: cs =>
    (seen && c == '.' &&
      (match cs with
        | a :: b :: _ => tldChars.contains a && tldChars.contains b
        | _ => false)) ||
    (hostChars.contains c && beginsCoreFrom true cs)

/-- The text begins with at least one character of `[0-9a-z.-]`, then a dot, then two
characters of `[a-z.]`. -/
def beginsCore (r : List Char) : Bool := beginsCoreFrom false r

/-- The whole text is a non-empty run of characters of `[\da-z\.-]`, a dot and at
least two characters of `[a-z\.]`, and nothing else. -/
def isCoreFrom : Bool → List Char → Bool
  | _, [] => false
  | seen, c :: cs =>
    (seen && c == '.' && decide (2 ≤ cs.length) && cs.all tldChars.contains) ||
    (hostChars.contains c && isCoreFrom true cs)

/-- The whole text consists of at least one character of `[0-9a-z.-]`, then a dot,
then at least two characters of `[a-z.]`. -/
def isCore (r : List Char) : Bool := isCoreFrom false r

/-- The text after one leading `https://` or `http://`, if there is one. -/
def stripScheme (s : List Char) : List Char :=
  if "https://".data.isPrefixOf s then s.drop 8
  else if "http://".data.isPrefixOf s then s.drop 7
  else s

/-- The host part of an address: the text after the optional scheme and before the first `/`. -/
def hostPart (s : List Char) : List Char := (stripScheme s).takeWhile (fun c => c != '/')

/-- The last dot-separated label of a text. -/
def lastLabel (h : List Char) : List Char := (h.reverse.takeWhile (fun c => c != '.')).reverse

/-- The text consists of between 2 and 6 letters. -/
def isTldLabel (l : List Char) : Bool :=
  decide (2 ≤ l.length) && decide (l.length ≤ 6) && l.all Char.isAlpha

/-! ## Concrete inputs -/

/-- An element node. -/
def el (tag : String) (attrs : List Attribute) (cs : List Node) : Node :=
  .mk NodeType.ElementNode tag attrs cs

/-- A text node. -/
def txt (t : String) : Node := .mk NodeType.TextNode t [] []

/-- An attribute without namespace. -/
def attr (k v : String) : Attribute := ⟨"", k, v⟩

/-- A library for examples.  The network state counts the requests made.  An address
parses unless it contains a space; resolving keeps the host of the reference, or that
of the base when the reference has none.  On the host `up.test` every request answers
200 with the page `A`; on `get.test` `HEAD` answers 405 and `GET` 200; on `gone.test`
every request answers 404; the name `lost.test` does not resolve; every other request
is refused.  The parser and the tokenizer know the page `A` only. -/
def demoLib : Lib Nat where
  urlParse := fun s =>
    if s.data.contains ' ' then .error "invalid character in address"
    else if strings.HasPrefix s "//up.test" then .ok ⟨"", "up.test", "", "", ""⟩
    else if strings.HasPrefix s "//get.test" then .ok ⟨"", "get.test", "", "", ""⟩
    else if strings.HasPrefix s "//" then .ok ⟨"", "down.test", "", "", ""⟩
    else if strings.HasPrefix s "https://up.test" then .ok ⟨"https", "up.test", "", "", ""⟩
    else .ok ⟨"", "", s, "", ""⟩
  ResolveReference := fun base ref =>
    ⟨base.Scheme, if ref.Host == "" then base.Host else ref.Host, ref.Path, "", ""⟩
  urlString := fun u => u.Scheme ++ "://" ++ u.Host ++ u.Path
  httpHead := fun u k =>
    if strings.HasPrefix u "https://up.test" then (.ok ⟨200, .ok ""⟩, k + 1)
    else if strings.HasPrefix u "https://get.test" then (.ok ⟨405, .ok ""⟩, k + 1)
    else if strings.HasPrefix u "https://gone.test" then (.ok ⟨404, .ok ""⟩, k + 1)
    else (.error "dial tcp 192.0.2.1:443: connect: connection refused", k + 1)
  httpGet := fun u k =>
    if strings.HasPrefix u "https://up.test" then (.ok ⟨200, .ok "A"⟩, k + 1)
    else if strings.HasPrefix u "https://get.test" then (.ok ⟨200, .ok ""⟩, k + 1)
    else if strings.HasPrefix u "https://gone.test" then (.ok ⟨404, .ok "gone"⟩, k + 1)
    else if strings.HasPrefix u "https://lost.test" then
      (.error "dial tcp: lookup lost.test: no such host (resolver: connection refused)", k + 1)
    else (.error "dial tcp 192.0.2.1:443: connect: connection refused", k + 1)
  httpStatusText := fun code => if code = 404 then "Not Found" else ""
  htmlParse := fun body =>
    if body == "A" then
      .ok (.mk NodeType.DocumentNode "" [] [el "html" [] [
        el "head" [] [el "title" [] [txt "T"]], el "body" [] [el "h1" [] [txt "A"]]]])
    else .error "unexpected end of input"
  htmlTokens := fun body =>
    if body == "A" then [⟨TokenType.DoctypeToken, "html"⟩, ⟨TokenType.StartTagToken, "html"⟩]
    else []

/-- The base address `https://up.test`. -/
def demoBase : URL := ⟨"https", "up.test", "", "", ""⟩

/-- The document of scenario A, with an upper-case `H2` and an anchor added:
a title `T`, one `h1`, two `h2`. -/
def docA : Node :=
  .mk NodeType.DocumentNode "" [] [el "html" [] [
    el "head" [] [el "title" [] [txt "T"]],
    el "body" [] [el "h1" [] [txt "A"], el "H2" [] [txt "B"], el "h2" [] [txt "C"],
      el "a" [attr "href" "#"] [txt "top"]]]]

/-- A document with two title elements, `First` and then `Second` in pre-order. -/
def docTwoTitles : Node :=
  .mk NodeType.DocumentNode "" [] [el "html" [] [
    el "head" [] [el "title" [] [txt "First"]],
    el "body" [] [el "svg" [] [el "TITLE" [] [txt "Second"]], el "p" [] [txt "x"]]]]

/-- Scenario C: a form with only a password input and a `Search` submit button. -/
def docPasswordSearch : Node :=
  .mk NodeType.DocumentNode "" [] [el "html" [] [el "body" [] [
    el "form" [] [el "div" [] [el "input" [attr "type" "password"] []],
      el "input" [attr "type" "submit", attr "value" "Search"] []]]]]

/-- The page of the test `Page without login form`: a text input and a submit, no password. -/
def docSearchForm : Node :=
  .mk NodeType.DocumentNode "" [] [el "html" [] [el "body" [] [
    el "form" [] [el "input" [attr "type" "text", attr "name" "search"] [],
      el "input" [attr "type" "submit", attr "value" "Search"] []]]]]

/-- A page with the same address linked twice and an anchor without `href`. -/
def docSameLinkTwice : Node :=
  .mk NodeType.DocumentNode "" [] [el "html" [] [el "body" [] [
    el "a" [attr "href" "/about"] [txt "About"],
    el "a" [attr "name" "top"] [txt "no address"],
    el "p" [] [el "A" [attr "HREF" "/about"] [txt "About again"]]]]]

/-- Tokens that are neither a doctype nor an error: white space, a comment, a start tag. -/
def tokensBeforeDoctype : List Token :=
  [⟨TokenType.TextToken, "\n"⟩, ⟨TokenType.CommentToken, " saved from a site "⟩,
    ⟨TokenType.StartTagToken, "html"⟩]

/-- A library that refuses every request and records the addresses asked for, in order. -/
def logLib : Lib (List String) where
  urlParse := fun _ => .error "no parser"
  ResolveReference := fun base _ => base
  urlString := fun _ => ""
  httpHead := fun u log => (.error "connection refused", log ++ ["HEAD " ++ u])
  httpGet := fun u log => (.error "connection refused", log ++ ["GET " ++ u])
  httpStatusText := fun _ => ""
  htmlParse := fun _ => .error "no parser"
  htmlTokens := fun _ => []

/-- Scenario B: a page whose only anchor is `<a href="#">`. -/
def docFragmentOnly : Node :=
  .mk NodeType.DocumentNode "" [] [el "html" [] [el "body" [] [
    el "p" [] [txt "intro"], el "a" [attr "href" "#"] [txt "top"]]]]

/-- An anchor whose address is a fragment with white space around it and which
carries a second `href`. -/
def anchorFragment : Node :=
  el "A" [attr "class" "nav", attr "HREF" "  #section-2\n", attr "href" "//down.test/"] []

/-- An anchor whose address contains a space, which the example library refuses to parse. -/
def anchorUnparsable : Node := el "a" [attr "href" " about us.html "] [txt "About"]

/-- An anchor to `//get.test/`, where `HEAD` answers 405 and `GET` answers 200. -/
def anchorGetOnly : Node := el "a" [attr "href" "//get.test/"] [txt "mirror"]

/-- An anchor to `//up.test/`, where `HEAD` answers 200. -/
def anchorUp : Node := el "a" [attr "href" "//up.test/"] [txt "home"]

/-- An anchor to `//down.test/`, where every request is refused. -/
def anchorDown : Node := el "a" [attr "href" "//down.test/"] [txt "gone"]

/-- A second base address, on a host where every request is refused. -/
def demoBaseDown : URL := ⟨"https", "down.test", "", "", ""⟩

/-- A document whose first title element holds the text `First` and whose last title
element has no children. -/
def docTitleThenEmpty : Node :=
  .mk NodeType.DocumentNode "" [] [el "html" [] [
    el "head" [] [el "title" [] [txt "First"]],
    el "body" [] [el "svg" [] [el "title" [] []]]]]

/-- A document whose last title element starts with an element, not with a text node. -/
def docTitleThenMarkup : Node :=
  .mk NodeType.DocumentNode "" [] [el "html" [] [
    el "head" [] [el "title" [] [txt "First"]],
    el "body" [] [el "svg" [] [el "title" [] [el "b" [] [txt "Second"]]]]]]

/-- A page with a probed link, then a heading that holds a dead link and a text. -/
def pageLinksFirst : Node :=
  el "body" [] [anchorGetOnly, el "h2" [] [anchorDown, txt "t"]]

/-- The same page with the two children of the body swapped and the two children of
the heading swapped. -/
def pageLinksLast : Node :=
  el "body" [] [el "h2" [] [txt "t", anchorDown], anchorGetOnly]

/-- A document whose title tag is written with the dotted capital I (U+0130), which
`strings.ToLower` maps to `i`. -/
def docDottedTitle : Node :=
  .mk NodeType.DocumentNode "" [] [el "html" [] [
    el "head" [] [el "t\u0130tle" [] [txt "Dotted"]], el "body" [] []]]

/-- A form whose password input has the tag `İNPUT` and whose text input carries the
placeholder `EMAİL`, both written with U+0130; the form has no submit control. -/
def docDottedLogin : Node :=
  .mk NodeType.DocumentNode "" [] [el "html" [] [el "body" [] [
    el "form" [] [el "\u0130NPUT" [attr "type" "password"] [],
      el "input" [attr "type" "text", attr "placeholder" "EMA\u0130L"] []]]]]

/-- An anchor whose address is the bare fragment `#`. -/
def anchorTop : Node := el "a" [attr "href" "#"] [txt "top"]

/-- An anchor whose address is empty. -/
def anchorEmpty : Node := el "a" [attr "href" ""] [txt "here"]

/-- A document whose only title element holds an empty text node. -/
def docTitleEmptyText : Node :=
  .mk NodeType.DocumentNode "" [] [el "html" [] [
    el "head" [] [el "title" [] [txt ""]], el "body" [] []]]

/-! ## Lemmas -/

theorem Node.induct {P : Node → Prop} {Q : List Node → Prop}
    (hmk : ∀ t d a cs, Q cs → P (.mk t d a cs)) (hnil : Q [])
    (hcons : ∀ c cs, P c → Q cs → Q (c :: cs)) (n : Node) : P n :=
  Node.rec (motive_1 := P) (motive_2 := Q) hmk hnil hcons n

theorem mergeChild_assoc (a b c : IntMap × Links) :
    mergeChild a (mergeChild b c) = mergeChild (mergeChild a b) c := by
  unfold mergeChild
  refine Prod.ext ?_ ?_
  · funext j
    simp only [IntMap.merge]
    cases c.1 j <;> cases b.1 j <;> cases a.1 j <;> simp
    all_goals omega
  · simp [add_assoc]

theorem traverse_fold (lib : Lib σ) (url : URL) (n : Node) :
    ∀ acc dom w, (mergeChild acc (traverse lib url n dom w).1, (traverse lib url n dom w).2)
      = (preorder n).foldl (walkStep lib url) (acc, dom, w) := by
  refine Node.induct (P := fun n => ∀ acc dom w,
      (mergeChild acc (traverse lib url n dom w).1, (traverse lib url n dom w).2)
        = (preorder n).foldl (walkStep lib url) (acc, dom, w))
    (Q := fun cs => ∀ base acc dom w,
      (mergeChild base (traverseChildren lib url cs acc dom w).1,
        (traverseChildren lib url cs acc dom w).2)
        = (preorderList cs).foldl (walkStep lib url) (mergeChild base acc, dom, w)) ?_ ?_ ?_ n
  · intro t d a cs ih acc dom w
    rw [traverse, preorder, List.foldl_cons]
    exact ih acc _ _ _
  · intro base acc dom w
    simp [traverseChildren, preorderList]
  · intro c cs ihc ihcs base acc dom w
    rw [traverseChildren, preorderList, List.foldl_append, ← ihc, ← mergeChild_assoc]
    exact ihcs base _ _ _

set_option maxRecDepth 100000 in
theorem headingOfTag_ascii : ∀ k, k < 128 →
    headingOfTag ⟨['h', Char.ofNat k]⟩ = headingTable ⟨['h', Char.ofNat k]⟩ := by
  decide

theorem utf8Size_eq_one (c : Char) (h : c.utf8Size = 1) : c.toNat < 128 := by
  simp only [Char.utf8Size] at h
  unfold Char.toNat
  split_ifs at h with h1
  · have : c.val.toNat ≤ 127 := h1
    omega
  all_goals omega

theorem headingOfTag_of_guard (tag : String)
    (h : (strings.HasPrefix tag "h" && len tag == 2) = false) :
    headingOfTag tag = (0, false) := by
  simp [headingOfTag, h]

theorem headingTable_of_shape (l : List Char) (h : ∀ c, l ≠ ['h', c]) :
    headingTable ⟨l⟩ = (0, false) := by
  have e : ∀ c, (String.mk l = String.mk ['h', c]) = False := by
    intro c; simp [String.ext_iff, h c]
  have e1 := e '1'; have e2 := e '2'; have e3 := e '3'
  have e4 := e '4'; have e5 := e '5'; have e6 := e '6'
  unfold headingTable
  rw [if_neg (by simpa using e1), if_neg (by simpa using e2), if_neg (by simpa using e3),
    if_neg (by simpa using e4), if_neg (by simpa using e5), if_neg (by simpa using e6)]

theorem headingOfTag_eq (tag : String) : headingOfTag tag = headingTable tag := by
  obtain ⟨l⟩ := tag
  by_cases hs : ∃ c, l = ['h', c] ∧ c.utf8Size = 1
  · obtain ⟨c, rfl, hc⟩ := hs
    have := headingOfTag_ascii c.toNat (utf8Size_eq_one c hc)
    simpa [Char.ofNat_toNat] using this
  · have hg : (strings.HasPrefix ⟨l⟩ "h" && len ⟨l⟩ == 2) = false := by
      match l, hs with
      | [], _ => decide
      | [a], _ =>
        by_cases ha : 'h' = a
        · subst ha; decide
        · simp [strings.HasPrefix, ha]
      | [a, b], hs =>
        by_cases ha : 'h' = a
        · subst ha
          have hb : b.utf8Size ≠ 1 := fun hb => hs ⟨b, rfl, hb⟩
          have : 'h'.utf8Size = 1 := by decide
          simp [strings.HasPrefix, len, this]
          omega
        · simp [strings.HasPrefix, ha]
      | a :: b :: c :: r, _ =>
        have h1 := a.utf8Size_pos
        have h2 := b.utf8Size_pos
        have h3 := c.utf8Size_pos
        simp [strings.HasPrefix, len]
        intro _
        omega
    rw [headingOfTag_of_guard _ hg]
    by_cases hl : ∃ c, l = ['h', c]
    · obtain ⟨c, rfl⟩ := hl
      have hc : c.utf8Size ≠ 1 := fun hc => hs ⟨c, rfl, hc⟩
      have hne : ∀ d : Char, d.utf8Size = 1 → (String.mk ['h', c] = String.mk ['h', d]) = False := by
        intro d hd
        simp only [eq_iff_iff, iff_false]
        intro hcd
        have : c = d := by simpa [String.ext_iff] using hcd
        exact hc (this ▸ hd)
      unfold headingTable
      rw [if_neg (by simpa using hne '1' (by decide)), if_neg (by simpa using hne '2' (by decide)),
        if_neg (by simpa using hne '3' (by decide)), if_neg (by simpa using hne '4' (by decide)),
        if_neg (by simpa using hne '5' (by decide)), if_neg (by simpa using hne '6' (by decide))]
    · exact (headingTable_of_shape l (fun c hc => hl ⟨c, hc⟩)).symm

theorem isHeadingTag_eq (n : Node) : isHeadingTag n = headingTable (strings.ToLower n.Data) :=
  headingOfTag_eq _

theorem checkNode_map (lib : Lib σ) (n : Node) (dom : DOMAnalysis) (url : URL) (w : σ) :
    (checkNode lib n dom url w).1.1 =
      if n.Typ = NodeType.ElementNode ∧ (isHeadingTag n).2 = true then
        IntMap.empty.incr (isHeadingTag n).1
      else IntMap.empty := by
  unfold checkNode
  by_cases h : n.Typ = NodeType.ElementNode <;> by_cases h2 : (isHeadingTag n).2 = true <;>
    simp [h, h2]

theorem walkStep_map (lib : Lib σ) (url : URL) (st : (IntMap × Links) × DOMAnalysis × σ)
    (n : Node) (L : Int) :
    (walkStep lib url st n).1.1 L =
      if countsAt L n = true then some ((st.1.1 L).getD 0 + 1) else st.1.1 L := by
  simp only [walkStep, mergeChild, checkNode_map, IntMap.merge, countsAt]
  by_cases h3 : L = (isHeadingTag n).1
  · by_cases h : n.Typ = NodeType.ElementNode <;> by_cases h2 : (isHeadingTag n).2 = true <;>
      simp [h, h2, h3, IntMap.incr, IntMap.empty]
  · have h3b : ¬ (isHeadingTag n).1 = L := fun e => h3 e.symm
    by_cases h : n.Typ = NodeType.ElementNode <;> by_cases h2 : (isHeadingTag n).2 = true <;>
      simp [h, h2, h3, h3b, IntMap.incr, IntMap.empty]

theorem fold_map (lib : Lib σ) (url : URL) (l : List Node) (L : Int) :
    ∀ st : (IntMap × Links) × DOMAnalysis × σ,
      (l.foldl (walkStep lib url) st).1.1 L =
        if (l.filter (countsAt L)).length = 0 then st.1.1 L
        else some ((st.1.1 L).getD 0 + ((l.filter (countsAt L)).length : Int)) := by
  induction l with
  | nil => intro st; simp
  | cons n l ih =>
    intro st
    rw [List.foldl_cons, ih, walkStep_map]
    by_cases hn : countsAt L n = true
    · by_cases hl : (l.filter (countsAt L)).length = 0
      · simp [hn, hl, List.filter_cons]
      · simp [hn, hl, List.filter_cons]; omega
    · simp [hn, List.filter_cons]

theorem headingTag_values :
    headingTag 1 = "h1" ∧ headingTag 2 = "h2" ∧ headingTag 3 = "h3" ∧ headingTag 4 = "h4" ∧
      headingTag 5 = "h5" ∧ headingTag 6 = "h6" := by
  decide

theorem headingTable_level (tag : String) (h : (headingTable tag).2 = true) :
    1 ≤ (headingTable tag).1 ∧ (headingTable tag).1 ≤ 6 ∧
      tag = headingTag (headingTable tag).1 := by
  obtain ⟨e1, e2, e3, e4, e5, e6⟩ := headingTag_values
  unfold headingTable at h ⊢
  split_ifs at h ⊢ with h1 h2 h3 h4 h5 h6
  · simp [h1, e1]
  · simp [h2, e2]
  · simp [h3, e3]
  · simp [h4, e4]
  · simp [h5, e5]
  · simp [h6, e6]

theorem headingTable_headingTag (L : Int) (h1 : 1 ≤ L) (h6 : L ≤ 6) :
    headingTable (headingTag L) = (L, true) := by
  have : L = 1 ∨ L = 2 ∨ L = 3 ∨ L = 4 ∨ L = 5 ∨ L = 6 := by omega
  rcases this with rfl | rfl | rfl | rfl | rfl | rfl <;> decide

theorem countsAt_eq (L : Int) (h1 : 1 ≤ L) (h6 : L ≤ 6) (n : Node) :
    countsAt L n = isHeadingElement L n := by
  unfold countsAt isHeadingElement
  rw [isHeadingTag_eq]
  by_cases hty : n.Typ = NodeType.ElementNode
  · simp only [hty, beq_self_eq_true, Bool.true_and]
    by_cases ht : strings.ToLower n.Data = headingTag L
    · rw [ht, headingTable_headingTag L h1 h6]; simp
    · by_cases h2 : (headingTable (strings.ToLower n.Data)).2 = true
      · have := headingTable_level _ h2
        have hne : ¬ (headingTable (strings.ToLower n.Data)).1 = L := by
          intro e; rw [e] at this; exact ht this.2.2
        simp [h2, hne, ht]
      · simp [h2, ht]
  · have hf : (n.Typ == NodeType.ElementNode) = false := by simpa using hty
    rw [hf, Bool.false_and, Bool.false_and]

theorem mergeChild_zero (x : IntMap × Links) :
    mergeChild (IntMap.empty, ⟨0, 0, 0⟩) x = x := by
  unfold mergeChild
  refine Prod.ext ?_ ?_
  · funext j
    simp only [IntMap.merge, IntMap.empty]
    cases x.1 j <;> simp
  · simp

theorem traverse_eq_fold (lib : Lib σ) (url : URL) (n : Node) (dom : DOMAnalysis) (w : σ) :
    traverse lib url n dom w
      = (preorder n).foldl (walkStep lib url) ((IntMap.empty, ⟨0, 0, 0⟩), dom, w) := by
  rw [← traverse_fold, mergeChild_zero]

theorem traverse_map (lib : Lib σ) (url : URL) (n : Node) (dom : DOMAnalysis) (w : σ) (L : Int) :
    (traverse lib url n dom w).1.1 L =
      if ((preorder n).filter (countsAt L)).length = 0 then none
      else some (((preorder n).filter (countsAt L)).length : Int) := by
  rw [traverse_eq_fold, fold_map]
  simp [IntMap.empty]

theorem collectHeadings_eq (hc : IntMap) (ls : List Int) :
    ∀ hs, collectHeadings hc ls hs = hs ++ ls.filterMap (headingEntry hc) := by
  induction ls with
  | nil => intro hs; simp [collectHeadings]
  | cons level rest ih =>
    intro hs
    unfold collectHeadings
    cases h : hc level with
    | none => simp [ih, headingEntry, h]
    | some count => simp [ih, headingEntry, h]

theorem analyseDOM_ok (lib : Lib σ) (tree : Node) (base : URL) (w : σ) :
    (analyseDOM lib (.ok tree) base w).1 =
      .ok ⟨(traverse lib base tree ⟨"", [], ⟨0, 0, 0⟩, false⟩ w).2.1.Title,
        collectHeadings (traverse lib base tree ⟨"", [], ⟨0, 0, 0⟩, false⟩ w).1.1
          [1, 2, 3, 4, 5, 6] (traverse lib base tree ⟨"", [], ⟨0, 0, 0⟩, false⟩ w).2.1.Headings,
        (traverse lib base tree ⟨"", [], ⟨0, 0, 0⟩, false⟩ w).1.2,
        (traverse lib base tree ⟨"", [], ⟨0, 0, 0⟩, false⟩ w).2.1.LoginForm⟩ := rfl

theorem checkNode_dom (lib : Lib σ) (n : Node) (dom : DOMAnalysis) (url : URL) (w : σ) :
    (checkNode lib n dom url w).2.1 =
      if n.Typ = NodeType.ElementNode then
        ⟨if (isTitleTag n).2 = true then (isTitleTag n).1 else dom.Title, dom.Headings, dom.Links,
          dom.LoginForm || (strings.ToLower n.Data == "form" && isLoginForm n)⟩
      else dom := by
  unfold checkNode
  by_cases h : n.Typ = NodeType.ElementNode
  · by_cases h1 : (isTitleTag n).2 = true <;>
      by_cases h2 : (strings.ToLower n.Data == "form") = true <;>
      by_cases h3 : isLoginForm n = true <;> simp [h, h1, h2, h3]
  · simp [h]

theorem fold_headings (lib : Lib σ) (url : URL) (l : List Node) :
    ∀ st : (IntMap × Links) × DOMAnalysis × σ,
      (l.foldl (walkStep lib url) st).2.1.Headings = st.2.1.Headings := by
  induction l with
  | nil => intro st; rfl
  | cons n l ih =>
    intro st
    rw [List.foldl_cons, ih]
    simp only [walkStep, checkNode_dom]
    split <;> rfl

theorem analyseDOM_headings (lib : Lib σ) (tree : Node) (base : URL) (w : σ) :
    ∃ da, (analyseDOM lib (.ok tree) base w).1 = .ok da ∧
      da.Headings = [1, 2, 3, 4, 5, 6].filterMap (fun L =>
        if ((preorder tree).filter (countsAt L)).length = 0 then none
        else some ⟨headingTag L, L, (((preorder tree).filter (countsAt L)).length : Int)⟩) := by
  refine ⟨_, analyseDOM_ok lib tree base w, ?_⟩
  simp only [collectHeadings_eq]
  rw [traverse_eq_fold, fold_headings, ← traverse_eq_fold]
  simp only [List.nil_append]
  apply List.filterMap_congr
  intro L _
  simp only [headingEntry, traverse_map]
  split <;> simp

theorem node_counted_once (n : Node) :
    (([1, 2, 3, 4, 5, 6] : List Int).map (fun L => if countsAt L n = true then 1 else 0)).sum
      = if isAnyHeadingElement n = true then 1 else 0 := by
  obtain ⟨e1, e2, e3, e4, e5, e6⟩ := headingTag_values
  rw [List.map_cons, List.map_cons, List.map_cons, List.map_cons, List.map_cons, List.map_cons,
    List.map_nil]
  rw [countsAt_eq 1 (by decide) (by decide), countsAt_eq 2 (by decide) (by decide),
    countsAt_eq 3 (by decide) (by decide), countsAt_eq 4 (by decide) (by decide),
    countsAt_eq 5 (by decide) (by decide), countsAt_eq 6 (by decide) (by decide)]
  unfold isHeadingElement isAnyHeadingElement
  rw [e1, e2, e3, e4, e5, e6]
  by_cases hty : n.Typ = NodeType.ElementNode
  · generalize strings.ToLower n.Data = tag
    by_cases h1 : tag = "h1"
    · subst h1; simp [hty]
    by_cases h2 : tag = "h2"
    · subst h2; simp [hty]
    by_cases h3 : tag = "h3"
    · subst h3; simp [hty]
    by_cases h4 : tag = "h4"
    · subst h4; simp [hty]
    by_cases h5 : tag = "h5"
    · subst h5; simp [hty]
    by_cases h6 : tag = "h6"
    · subst h6; simp [hty]
    simp [hty, h1, h2, h3, h4, h5, h6, Ne.symm h1, Ne.symm h2, Ne.symm h3, Ne.symm h4,
      Ne.symm h5, Ne.symm h6]
  · have hf : (n.Typ == NodeType.ElementNode) = false := by simpa using hty
    simp [hf]

theorem counted_total (l : List Node) :
    (([1, 2, 3, 4, 5, 6] : List Int).map (fun L => (l.filter (countsAt L)).length)).sum
      = (l.filter isAnyHeadingElement).length := by
  induction l with
  | nil => simp
  | cons n l ih =>
    have hn := node_counted_once n
    simp only [List.map_cons, List.map_nil, List.sum_cons, List.sum_nil, List.filter_cons] at hn ih ⊢
    by_cases a : isAnyHeadingElement n = true <;>
    by_cases c1 : countsAt 1 n = true <;> by_cases c2 : countsAt 2 n = true <;>
    by_cases c3 : countsAt 3 n = true <;> by_cases c4 : countsAt 4 n = true <;>
    by_cases c5 : countsAt 5 n = true <;> by_cases c6 : countsAt 6 n = true <;>
    simp [a, c1, c2, c3, c4, c5, c6] at hn ⊢ <;> omega

theorem headings_sum (g : Int → Nat) (ls : List Int) :
    ((ls.filterMap (fun L => if g L = 0 then none
        else some (⟨headingTag L, L, (g L : Int)⟩ : Heading))).map Heading.Count).sum
      = ((ls.map g).sum : Nat) := by
  induction ls with
  | nil => simp
  | cons L rest ih =>
    by_cases h : g L = 0
    · simp [List.filterMap_cons, h, ih]
    · simp [List.filterMap_cons, h, ih]

theorem isTitleTag_eq (n : Node) (h : n.Typ = NodeType.ElementNode) :
    isTitleTag n = if isTitleElement n = true then (firstChildText n, true) else ("", false) := by
  unfold isTitleTag isTitleElement firstChildText Node.FirstChild
  obtain ⟨t, d, a, cs⟩ := n
  simp only [Node.Typ] at h
  subst h
  cases cs with
  | nil => simp [Node.children]
  | cons c cs =>
    by_cases h1 : strings.ToLower d = "title" <;> by_cases h2 : c.Typ = NodeType.TextNode <;>
      simp [Node.children, Node.Data, Node.Typ, h1, h2]

theorem isTitleElement_element (n : Node) (h : isTitleElement n = true) :
    n.Typ = NodeType.ElementNode := by
  unfold isTitleElement at h
  simp only [Bool.and_eq_true, beq_iff_eq] at h
  exact h.1.1

theorem walkStep_title (lib : Lib σ) (url : URL) (st : (IntMap × Links) × DOMAnalysis × σ)
    (n : Node) :
    (walkStep lib url st n).2.1.Title =
      if isTitleElement n = true then firstChildText n else st.2.1.Title := by
  simp only [walkStep, checkNode_dom]
  by_cases h : n.Typ = NodeType.ElementNode
  · rw [if_pos h, isTitleTag_eq n h]
    by_cases h1 : isTitleElement n = true <;> simp [h1]
  · have h1 : ¬ isTitleElement n = true := fun e => h (isTitleElement_element n e)
    rw [if_neg h, if_neg h1]

theorem fold_title (lib : Lib σ) (url : URL) (l : List Node) :
    ∀ st : (IntMap × Links) × DOMAnalysis × σ,
      (l.foldl (walkStep lib url) st).2.1.Title =
        (((l.filter isTitleElement).getLast?).map firstChildText).getD st.2.1.Title := by
  induction l with
  | nil => intro st; simp
  | cons n l ih =>
    intro st
    rw [List.foldl_cons, ih, walkStep_title]
    by_cases h : isTitleElement n = true
    · rw [if_pos h, List.filter_cons_of_pos h, List.getLast?_cons]
      cases (l.filter isTitleElement).getLast? <;> simp
    · rw [if_neg h, List.filter_cons_of_neg h]

theorem analyseDOM_title (lib : Lib σ) (tree : Node) (base : URL) (w : σ) :
    ∃ da, (analyseDOM lib (.ok tree) base w).1 = .ok da ∧
      da.Title = ((((preorder tree).filter isTitleElement).getLast?).map firstChildText).getD "" := by
  refine ⟨_, analyseDOM_ok lib tree base w, ?_⟩
  simp only
  rw [traverse_eq_fold, fold_title]

theorem hintLoop_eq (l : List Attribute) : ∀ h, hintLoop l h = (h || l.any isHintAttr) := by
  induction l with
  | nil => intro h; simp [hintLoop]
  | cons a rest ih =>
    intro h
    have e : isHintAttr a =
        ((strings.ToLower a.Key == "name" || strings.ToLower a.Key == "id" ||
            strings.ToLower a.Key == "placeholder") &&
          (strings.Contains (strings.ToLower a.Val) "email" ||
            strings.Contains (strings.ToLower a.Val) "username" ||
            strings.Contains (strings.ToLower a.Val) "login" ||
            strings.Contains (strings.ToLower a.Val) "pass" ||
            strings.Contains (strings.ToLower a.Val) "phone" ||
            strings.Contains (strings.ToLower a.Val) "mobile")) := rfl
    rw [List.any_cons, e]
    simp only [hintLoop]
    split
    · rename_i hk
      split
      · rename_i hv
        rw [ih, hk, hv]
        cases h <;> simp
      · rename_i hv
        rw [ih, hk, (Bool.not_eq_true _).mp hv]
        simp
    · rename_i hk
      rw [ih, (Bool.not_eq_true _).mp hk]
      simp

theorem inputLoop_eq (all : List Attribute) (l : List Attribute) :
    ∀ f, inputLoop all l f =
      ⟨f.hasPassword ||
          l.any (fun a => strings.ToLower a.Key == "type" && strings.ToLower a.Val == "password"),
        f.hasEmailOrUsername ||
          (l.any (fun a => strings.ToLower a.Key == "type" &&
              (strings.ToLower a.Val == "email" || strings.ToLower a.Val == "text")) &&
            all.any isHintAttr),
        f.hasSubmit ||
          l.any (fun a => strings.ToLower a.Key == "type" &&
              (strings.ToLower a.Val == "submit" || strings.ToLower a.Val == "button"))⟩ := by
  induction l with
  | nil => intro f; simp [inputLoop]
  | cons a rest ih =>
    intro f
    obtain ⟨p, e, s⟩ := f
    simp only [inputLoop, ih, hintLoop_eq, List.any_cons]
    generalize List.any rest (fun a => strings.ToLower a.Key == "type" &&
      strings.ToLower a.Val == "password") = P
    generalize List.any rest (fun a => strings.ToLower a.Key == "type" &&
      (strings.ToLower a.Val == "email" || strings.ToLower a.Val == "text")) = E
    generalize List.any rest (fun a => strings.ToLower a.Key == "type" &&
      (strings.ToLower a.Val == "submit" || strings.ToLower a.Val == "button")) = S
    generalize List.any all isHintAttr = H
    by_cases hk : strings.ToLower a.Key = "type"
    · generalize strings.ToLower a.Val = v
      by_cases h1 : v = "password"
      · subst h1
        cases P <;> cases E <;> cases S <;> cases H <;> cases p <;> cases e <;> cases s <;>
          simp [hk]
      by_cases h2 : v = "email"
      · subst h2
        cases P <;> cases E <;> cases S <;> cases H <;> cases p <;> cases e <;> cases s <;>
          simp [hk]
      by_cases h3 : v = "text"
      · subst h3
        cases P <;> cases E <;> cases S <;> cases H <;> cases p <;> cases e <;> cases s <;>
          simp [hk]
      by_cases h4 : v = "submit"
      · subst h4
        cases P <;> cases E <;> cases S <;> cases H <;> cases p <;> cases e <;> cases s <;>
          simp [hk]
      by_cases h5 : v = "button"
      · subst h5
        cases P <;> cases E <;> cases S <;> cases H <;> cases p <;> cases e <;> cases s <;>
          simp [hk]
      have b1 : (v == "password") = false := by simpa using h1
      have b2 : (v == "email") = false := by simpa using h2
      have b3 : (v == "text") = false := by simpa using h3
      have b4 : (v == "submit") = false := by simpa using h4
      have b5 : (v == "button") = false := by simpa using h5
      simp [hk, b1, b2, b3, b4, b5]
    · have bk : (strings.ToLower a.Key == "type") = false := by simpa using hk
      simp [bk]

theorem formNode_eq (n : Node) (f : FormFlags) :
    formNode n f = ⟨f.hasPassword || isPasswordInput n, f.hasEmailOrUsername || isIdentityInput n,
      f.hasSubmit || isSubmitControl n⟩ := by
  obtain ⟨p, e, s⟩ := f
  unfold formNode isPasswordInput isIdentityInput isSubmitControl isInput hasType
  simp only [inputLoop_eq]
  generalize List.any n.Attr (fun a => strings.ToLower a.Key == "type" &&
      strings.ToLower a.Val == "password") = P
  generalize List.any n.Attr (fun a => strings.ToLower a.Key == "type" &&
      (strings.ToLower a.Val == "email" || strings.ToLower a.Val == "text")) = E
  generalize List.any n.Attr (fun a => strings.ToLower a.Key == "type" &&
      (strings.ToLower a.Val == "submit" || strings.ToLower a.Val == "button")) = S
  generalize List.any n.Attr isHintAttr = H
  by_cases hty : n.Typ = NodeType.ElementNode
  · generalize strings.ToLower n.Data = tag
    by_cases h1 : tag = "input"
    · subst h1
      cases P <;> cases E <;> cases S <;> cases H <;> cases p <;> cases e <;> cases s <;>
        simp [hty]
    by_cases h2 : tag = "button"
    · subst h2
      cases P <;> cases E <;> cases S <;> cases H <;> cases p <;> cases e <;> cases s <;>
        simp [hty]
    have b1 : (tag == "input") = false := by simpa using h1
    have b2 : (tag == "button") = false := by simpa using h2
    simp [hty, b1, b2]
  · have hf : (n.Typ == NodeType.ElementNode) = false := by simpa using hty
    simp [hty, hf]

theorem traverseForm_fold (n : Node) :
    ∀ f, traverseForm n f = (preorder n).foldl (fun f n => formNode n f) f := by
  refine Node.induct (P := fun n => ∀ f, traverseForm n f
      = (preorder n).foldl (fun f n => formNode n f) f)
    (Q := fun cs => ∀ f, traverseFormChildren cs f
      = (preorderList cs).foldl (fun f n => formNode n f) f) ?_ ?_ ?_ n
  · intro t d a cs ih f
    rw [traverseForm, preorder, List.foldl_cons]
    exact ih _
  · intro f
    simp [traverseFormChildren, preorderList]
  · intro c cs ihc ihcs f
    rw [traverseFormChildren, preorderList, List.foldl_append, ← ihc]
    exact ihcs _

theorem formFold_eq (l : List Node) :
    ∀ f, l.foldl (fun f n => formNode n f) f =
      ⟨f.hasPassword || l.any isPasswordInput, f.hasEmailOrUsername || l.any isIdentityInput,
        f.hasSubmit || l.any isSubmitControl⟩ := by
  induction l with
  | nil => intro f; simp
  | cons n l ih =>
    intro f
    rw [List.foldl_cons, ih, formNode_eq]
    simp [Bool.or_assoc]

theorem isLoginForm_eq (n : Node) :
    isLoginForm n = (strings.ToLower n.Data == "form" && loginHeuristic n) := by
  unfold isLoginForm loginHeuristic
  rw [traverseForm_fold, formFold_eq]
  by_cases h : strings.ToLower n.Data = "form"
  · simp [h]
  · have hf : (strings.ToLower n.Data == "form") = false := by simpa using h
    simp [h, hf]

theorem walkStep_login (lib : Lib σ) (url : URL) (st : (IntMap × Links) × DOMAnalysis × σ)
    (n : Node) :
    (walkStep lib url st n).2.1.LoginForm =
      (st.2.1.LoginForm || (isFormElement n && loginHeuristic n)) := by
  simp only [walkStep, checkNode_dom, isLoginForm_eq, isFormElement]
  by_cases h : n.Typ = NodeType.ElementNode
  · simp [h]
  · have hf : (n.Typ == NodeType.ElementNode) = false := by simpa using h
    simp [h, hf]

theorem fold_login (lib : Lib σ) (url : URL) (l : List Node) :
    ∀ st : (IntMap × Links) × DOMAnalysis × σ,
      (l.foldl (walkStep lib url) st).2.1.LoginForm =
        (st.2.1.LoginForm || l.any (fun n => isFormElement n && loginHeuristic n)) := by
  induction l with
  | nil => intro st; simp
  | cons n l ih =>
    intro st
    rw [List.foldl_cons, ih, walkStep_login, List.any_cons, Bool.or_assoc]

theorem analyseDOM_login (lib : Lib σ) (tree : Node) (base : URL) (w : σ) :
    ∃ da, (analyseDOM lib (.ok tree) base w).1 = .ok da ∧
      da.LoginForm = (preorder tree).any (fun n => isFormElement n && loginHeuristic n) := by
  refine ⟨_, analyseDOM_ok lib tree base w, ?_⟩
  simp only
  rw [traverse_eq_fold, fold_login]
  simp

theorem isLinkTagAttrs_isLink (lib : Lib σ) (base : URL) (l : List Attribute) :
    ∀ w, (isLinkTagAttrs lib base l w).1.1 = l.any (fun a => strings.ToLower a.Key == "href") := by
  induction l with
  | nil => intro w; rfl
  | cons a rest ih =>
    intro w
    rw [List.any_cons]
    unfold isLinkTagAttrs
    by_cases hk : (strings.ToLower a.Key == "href") = true
    · rw [hk, if_pos rfl, Bool.true_or]
      simp only
      split
      · rfl
      · split
        · rfl
        · split
          · split <;> rfl
          · rfl
    · rw [if_neg hk, ih, (Bool.not_eq_true _).mp hk, Bool.false_or]

theorem isLinkTag_isLink (lib : Lib σ) (n : Node) (base : URL) (w : σ)
    (h : n.Typ = NodeType.ElementNode) :
    (isLinkTag lib n base w).1.1 = isAnchorWithHref n := by
  unfold isLinkTag isAnchorWithHref
  by_cases ha : strings.ToLower n.Data = "a"
  · simp [ha, h, isLinkTagAttrs_isLink]
  · have hf : (strings.ToLower n.Data == "a") = false := by simpa using ha
    simp [ha, hf]

theorem isAnchorWithHref_element (n : Node) (h : isAnchorWithHref n = true) :
    n.Typ = NodeType.ElementNode := by
  unfold isAnchorWithHref at h
  simp only [Bool.and_eq_true, beq_iff_eq] at h
  exact h.1.1

theorem checkNode_links (lib : Lib σ) (n : Node) (dom : DOMAnalysis) (url : URL) (w : σ) :
    (checkNode lib n dom url w).1.2 =
      if isAnchorWithHref n = true then
        ⟨if (isLinkTag lib n url w).1.2.2 = true then 0 else 1,
          if (isLinkTag lib n url w).1.2.1 = true then 0 else 1,
          if (isLinkTag lib n url w).1.2.1 = true then 1 else 0⟩
      else ⟨0, 0, 0⟩ := by
  by_cases h : n.Typ = NodeType.ElementNode
  · have hl := isLinkTag_isLink lib n url w h
    unfold checkNode
    by_cases h1 : isAnchorWithHref n = true
    · rw [h1] at hl
      by_cases h2 : (isLinkTag lib n url w).1.2.1 = true <;>
        by_cases h3 : (isLinkTag lib n url w).1.2.2 = true <;> simp [h, hl, h1, h2, h3]
    · rw [(Bool.not_eq_true _).mp h1] at hl
      simp [h, hl, h1]
  · have h1 : ¬ isAnchorWithHref n = true := fun e => h (isAnchorWithHref_element n e)
    unfold checkNode
    simp [h, h1]

theorem walkStep_links (lib : Lib σ) (url : URL) (st : (IntMap × Links) × DOMAnalysis × σ)
    (n : Node) :
    (walkStep lib url st n).1.2.Internal + (walkStep lib url st n).1.2.External =
        st.1.2.Internal + st.1.2.External + (if isAnchorWithHref n = true then 1 else 0) ∧
      (st.1.2.Valid → (walkStep lib url st n).1.2.Valid) := by
  simp only [walkStep, mergeChild, checkNode_links, Links.Valid]
  by_cases h1 : isAnchorWithHref n = true
  · by_cases h2 : (isLinkTag lib n url st.2.2).1.2.1 = true <;>
      by_cases h3 : (isLinkTag lib n url st.2.2).1.2.2 = true <;>
      simp [h1, h2, h3] <;> omega
  · simp [h1]

theorem fold_links (lib : Lib σ) (url : URL) (l : List Node) :
    ∀ st : (IntMap × Links) × DOMAnalysis × σ,
      (l.foldl (walkStep lib url) st).1.2.Internal + (l.foldl (walkStep lib url) st).1.2.External =
          st.1.2.Internal + st.1.2.External + ((l.filter isAnchorWithHref).length : Int) ∧
        (st.1.2.Valid → (l.foldl (walkStep lib url) st).1.2.Valid) := by
  induction l with
  | nil => intro st; simp
  | cons n l ih =>
    intro st
    rw [List.foldl_cons]
    obtain ⟨e1, v1⟩ := ih (walkStep lib url st n)
    obtain ⟨e2, v2⟩ := walkStep_links lib url st n
    refine ⟨?_, fun hv => v1 (v2 hv)⟩
    rw [e1, e2]
    by_cases h : isAnchorWithHref n = true
    · simp [h, List.filter_cons]; omega
    · simp [h, List.filter_cons]

theorem traverse_links (lib : Lib σ) (url : URL) (n : Node) (dom : DOMAnalysis) (w : σ) :
    (traverse lib url n dom w).1.2.Internal + (traverse lib url n dom w).1.2.External =
        (((preorder n).filter isAnchorWithHref).length : Int) ∧
      (traverse lib url n dom w).1.2.Valid := by
  rw [traverse_eq_fold]
  obtain ⟨e, v⟩ := fold_links lib url (preorder n) ((IntMap.empty, ⟨0, 0, 0⟩), dom, w)
  refine ⟨by simpa using e, v ?_⟩
  simp [Links.Valid]

theorem containsChars_iff (l sub : List Char) : containsChars l sub = true ↔ sub <:+: l := by
  induction l with
  | nil => simp [containsChars]
  | cons c cs ih =>
    rw [containsChars, Bool.or_eq_true, ih, List.infix_cons_iff, List.isPrefixOf_iff_prefix]

theorem mem_oneOf (l : List Char) (x : List Char) :
    x ∈ (oneOf l).matches' ↔ ∃ c ∈ l, x = [c] := by
  induction l with
  | nil => simp [oneOf, Language.not_mem_zero]
  | cons c cs ih =>
    rw [oneOf, RegularExpression.matches'_add, Language.mem_add, ih,
      RegularExpression.matches'_char]
    constructor
    · rintro (h | ⟨d, hd, e⟩)
      · exact ⟨c, List.mem_cons_self _ _, h⟩
      · exact ⟨d, List.mem_cons_of_mem _ hd, e⟩
    · rintro ⟨d, hd, e⟩
      rcases List.mem_cons.mp hd with rfl | hd
      · exact Or.inl e
      · exact Or.inr ⟨d, hd, e⟩

theorem lowerDelta_mem (t : List (Nat × Nat × Nat × Int)) (r : Nat) (d : Int)
    (h : lowerDelta t r = some d) : ∃ e ∈ t, e.1 ≤ r ∧ r ≤ e.2.1 ∧ d = e.2.2.2 := by
  induction t with
  | nil => simp [lowerDelta] at h
  | cons e t ih =>
    obtain ⟨lo, hi, stride, delta⟩ := e
    rw [lowerDelta] at h
    split at h
    · rename_i hc
      exact ⟨_, List.mem_cons_self _ _, hc.1, hc.2.1, by simpa using h.symm⟩
    · obtain ⟨e, he, h3⟩ := ih h
      exact ⟨e, List.mem_cons_of_mem _ he, h3⟩

set_option maxRecDepth 100000 in
theorem caseRanges_target : ∀ e ∈ caseRanges,
    128 ≤ (e.1 : Int) + e.2.2.2 ∨
      (e.1 = e.2.1 ∧ Char.ofNat ((e.1 : Int) + e.2.2.2).toNat ∉ "html 4.01x".data) := by
  decide

theorem ofNat_large (k : Nat) (h : 128 ≤ k) : Char.ofNat k ∉ "html 4.01x".data := by
  have h2 : (Char.ofNat k).toNat = k ∨ (Char.ofNat k).toNat = 0 := by
    unfold Char.ofNat
    split
    · left; rfl
    · right; rfl
  intro hm
  have : ∀ c ∈ "html 4.01x".data, 0 < c.toNat ∧ c.toNat < 128 := by decide
  have := this _ hm
  omega

theorem toLower_of_large (a : Char) (h : 128 ≤ a.toNat) :
    unicode.ToLower a ∉ "html 4.01x".data := by
  unfold unicode.ToLower
  rw [if_neg (by omega)]
  split
  · rename_i delta hd
    obtain ⟨e, he, h1, h2, rfl⟩ := lowerDelta_mem _ _ _ hd
    rcases caseRanges_target e he with h3 | ⟨h3, h4⟩
    · apply ofNat_large
      omega
    · have : a.toNat = e.1 := by omega
      rw [this]
      exact h4
  · intro hm
    have : ∀ c ∈ "html 4.01x".data, c.toNat < 128 := by decide
    have := this _ hm
    omega

set_option maxRecDepth 100000 in
theorem foldOrbit_small : ∀ c ∈ "html 4.01x".data,
    c.toNat < 128 ∧ (∀ b ∈ foldOrbit c, b.toNat < 128) ∧
      ∀ k, k < 128 → (Char.ofNat k ∈ foldOrbit c ↔ unicode.ToLower (Char.ofNat k) = c) := by
  decide

theorem mem_foldOrbit (c : Char) (hc : c ∈ "html 4.01x".data) (a : Char) :
    a ∈ foldOrbit c ↔ unicode.ToLower a = c := by
  obtain ⟨h1, h2, h3⟩ := foldOrbit_small c hc
  by_cases ha : a.toNat < 128
  · have := h3 a.toNat ha
    rwa [Char.ofNat_toNat] at this
  · constructor
    · intro hm
      exact absurd (h2 a hm) ha
    · intro e
      exact absurd (e ▸ hc) (toLower_of_large a (by omega))

theorem mem_foldLiteral (p : List Char) (hp : ∀ c ∈ p, c ∈ "html 4.01x".data) :
    ∀ x : List Char, x ∈ (foldLiteral p).matches' ↔ x.map unicode.ToLower = p := by
  induction p with
  | nil =>
    intro x
    rw [foldLiteral, RegularExpression.matches'_epsilon, Language.mem_one]
    simp
  | cons c cs ih =>
    intro x
    have ihc := ih (fun d hd => hp d (List.mem_cons_of_mem _ hd))
    rw [foldLiteral, RegularExpression.matches'_mul, Language.mem_mul]
    constructor
    · rintro ⟨a, ha, b, hb, rfl⟩
      obtain ⟨a1, ha1, rfl⟩ := (mem_oneOf _ _).mp ha
      rw [List.singleton_append, List.map_cons, (ihc b).mp hb,
        (mem_foldOrbit c (hp c (List.mem_cons_self _ _)) a1).mp ha1]
    · intro hx
      cases x with
      | nil => simp at hx
      | cons a1 b =>
        rw [List.map_cons, List.cons.injEq] at hx
        refine ⟨[a1], (mem_oneOf _ _).mpr ⟨a1, ?_, rfl⟩, b, (ihc b).mpr hx.2, rfl⟩
        exact (mem_foldOrbit c (hp c (List.mem_cons_self _ _)) a1).mpr hx.1

theorem infix_map_iff (f : Char → Char) (p s : List Char) :
    p <:+: s.map f ↔ ∃ m, m <:+: s ∧ m.map f = p := by
  constructor
  · rintro ⟨a, b, h⟩
    obtain ⟨ab, b1, rfl, hab, hb1⟩ := List.map_eq_append_iff.mp h.symm
    obtain ⟨a1, m, rfl, ha1, hm⟩ := List.map_eq_append_iff.mp hab
    exact ⟨m, ⟨a1, b1, rfl⟩, hm⟩
  · rintro ⟨m, hm, rfl⟩
    exact hm.map f

theorem MatchString_foldLiteral (p : List Char) (hp : ∀ c ∈ p, c ∈ "html 4.01x".data)
    (s : String) :
    regexp.MatchString (foldLiteral p) s = strings.Contains (strings.ToLower s) ⟨p⟩ := by
  rw [Bool.eq_iff_iff]
  unfold regexp.MatchString strings.Contains strings.ToLower
  rw [containsChars_iff, infix_map_iff]
  simp only [List.any_eq_true, List.mem_tails, List.mem_inits,
    RegularExpression.rmatch_iff_matches', mem_foldLiteral p hp]
  constructor
  · rintro ⟨t, ht, m, hm, e⟩
    exact ⟨m, List.infix_iff_prefix_suffix.mpr ⟨t, hm, ht⟩, e⟩
  · rintro ⟨m, hm, e⟩
    obtain ⟨t, h1, h2⟩ := List.infix_iff_prefix_suffix.mp hm
    exact ⟨t, h2, m, h1, e⟩

theorem MatchString_reHTML401 (s : String) :
    regexp.MatchString reHTML401 s = strings.Contains (strings.ToLower s) "html 4.01" :=
  MatchString_foldLiteral _ (by decide) s

theorem MatchString_reXHTML (s : String) :
    regexp.MatchString reXHTML s = strings.Contains (strings.ToLower s) "xhtml" :=
  MatchString_foldLiteral _ (by decide) s

theorem extractHTMLVersion_doctype (d : String) (rest : List Token) :
    extractHTMLVersion (⟨TokenType.DoctypeToken, d⟩ :: rest) =
      if d = "html" then "HTML 5"
      else if strings.Contains (strings.ToLower d) "html 4.01" = true then "HTML 4.01"
      else if strings.Contains (strings.ToLower d) "xhtml" = true then "XHTML"
      else "Unknown Doctype: " ++ d := by
  simp only [extractHTMLVersion, MatchString_reHTML401, MatchString_reXHTML, beq_iff_eq]

theorem extractHTMLVersion_skip (pre : List Token)
    (hpre : ∀ t ∈ pre, t.Typ ≠ TokenType.DoctypeToken ∧ t.Typ ≠ TokenType.ErrorToken)
    (rest : List Token) :
    extractHTMLVersion (pre ++ rest) = extractHTMLVersion rest := by
  induction pre with
  | nil => rfl
  | cons t pre ih =>
    have ht := hpre t (List.mem_cons_self _ _)
    rw [List.cons_append, extractHTMLVersion]
    rw [ih (fun u hu => hpre u (List.mem_cons_of_mem _ hu))]
    split
    · rename_i h; exact absurd h ht.1
    · rename_i h; exact absurd h ht.2
    · rfl

theorem hasPrefix_append (a b : String) : strings.HasPrefix (a ++ b) a = true := by
  unfold strings.HasPrefix
  rw [String.data_append, List.isPrefixOf_iff_prefix]
  exact List.prefix_append _ _

theorem hasPrefix_head_ne (s pre : String) (c d : Char) (r q : List Char)
    (hs : s.data = c :: r) (hp : pre.data = d :: q) (hne : d ≠ c) :
    strings.HasPrefix s pre = false := by
  unfold strings.HasPrefix
  rw [hs, hp]
  simp [List.isPrefixOf, hne]

theorem statusError_prefix (lib : Lib σ) (code : Int) :
    strings.HasPrefix (statusError lib code)
      ("HTTP error: received status code " ++ toString code) = true := by
  unfold statusError
  simp only [String.append_assoc]
  rw [← String.append_assoc]
  exact hasPrefix_append _ _

theorem ReadPageContent_status (lib : Lib σ) (urlStr : String) (w w1 : σ) (resp : Response)
    (hget : lib.httpGet (normaliseURL urlStr) w = (.ok resp, w1))
    (hcode : 400 ≤ resp.StatusCode) :
    ReadPageContent lib urlStr w = (.error (statusError lib resp.StatusCode), w1) := by
  unfold ReadPageContent
  simp only [hget]
  rw [if_pos hcode]

theorem ReadPageContent_pass (lib : Lib σ) (urlStr : String) (w w1 : σ) (resp : Response)
    (hget : lib.httpGet (normaliseURL urlStr) w = (.ok resp, w1))
    (hcode : resp.StatusCode < 400) :
    ReadPageContent lib urlStr w =
      match resp.Body with
      | .error err => (.error ("error reading response body: " ++ err), w1)
      | .ok bodyBytes =>
        match lib.urlParse (normaliseURL urlStr) with
        | .error _ => (.error "nil base address", w1)
        | .ok parsedUrl =>
          match (analyseDOM lib (lib.htmlParse bodyBytes) parsedUrl w1).1 with
          | .error err =>
            (.error ("error analysing DOM: " ++ err),
              (analyseDOM lib (lib.htmlParse bodyBytes) parsedUrl w1).2)
          | .ok d =>
            (.ok ⟨d, extractHTMLVersion (lib.htmlTokens bodyBytes)⟩,
              (analyseDOM lib (lib.htmlParse bodyBytes) parsedUrl w1).2) := by
  unfold ReadPageContent
  simp only [hget]
  rw [if_neg (by omega)]

theorem ReadPageContent_fetchError (lib : Lib σ) (urlStr : String) (w w1 : σ) (err : String)
    (hget : lib.httpGet (normaliseURL urlStr) w = (.error err, w1)) :
    ReadPageContent lib urlStr w = (.error (fetchError (normaliseURL urlStr) err), w1) := by
  unfold ReadPageContent
  simp only [hget]

theorem normaliseURL_eq (s : String) :
    normaliseURL s =
      if strings.HasPrefix s "http://" = true ∨ strings.HasPrefix s "https://" = true then s
      else "https://" ++ s := by
  unfold normaliseURL
  cases strings.HasPrefix s "http://" <;> cases strings.HasPrefix s "https://" <;> simp

theorem isLinkTagAttrs_find (lib : Lib σ) (base : URL) (l : List Attribute) (w : σ) :
    isLinkTagAttrs lib base l w =
      match l.find? (fun a => strings.ToLower a.Key == "href") with
      | none => ((false, false, false), w)
      | some a => isLinkTagAttrs lib base [a] w := by
  induction l with
  | nil => rfl
  | cons a rest ih =>
    by_cases hk : (strings.ToLower a.Key == "href") = true
    · simp only [List.find?_cons, hk]
      simp only [isLinkTagAttrs, hk, if_true]
    · have hf : (strings.ToLower a.Key == "href") = false := by simpa using hk
      simp only [List.find?_cons, hf]
      rw [← ih]
      simp only [isLinkTagAttrs, hf]
      rfl

theorem isLinkTag_eq (lib : Lib σ) (n : Node) (base : URL) (w : σ) :
    isLinkTag lib n base w =
      if strings.ToLower n.Data = "a" then
        match firstHref n with
        | none => ((false, false, false), w)
        | some a => isLinkTagAttrs lib base [a] w
      else ((false, false, false), w) := by
  unfold isLinkTag firstHref
  by_cases h : strings.ToLower n.Data = "a"
  · simp only [h, bne_self_eq_false, if_true]
    exact isLinkTagAttrs_find lib base n.Attr w
  · have hb : (strings.ToLower n.Data != "a") = true := by simpa using h
    simp [h, hb]

theorem firstHref_key (n : Node) (a : Attribute) (h : firstHref n = some a) :
    (strings.ToLower a.Key == "href") = true := by
  unfold firstHref at h
  exact List.find?_some (p := fun a : Attribute => strings.ToLower a.Key == "href") h


/-- The probe of `isLinkTag` (lines 156-171) for the resolved address of `linkURL`. -/
theorem isLinkTagAttrs_single (lib : Lib σ) (base : URL) (a : Attribute) (w : σ)
    (hk : (strings.ToLower a.Key == "href") = true) :
    isLinkTagAttrs lib base [a] w =
      if (strings.TrimSpace a.Val == "" || strings.HasPrefix (strings.TrimSpace a.Val) "#") = true then
        ((true, true, true), w)
      else
        match lib.urlParse (strings.TrimSpace a.Val) with
        | .error _ => ((true, false, false), w)
        | .ok linkURL =>
          if requestFailed
              (lib.httpHead (lib.urlString (lib.ResolveReference base linkURL)) w).1 = true then
            if requestFailed
                (lib.httpGet (lib.urlString (lib.ResolveReference base linkURL))
                  (lib.httpHead (lib.urlString (lib.ResolveReference base linkURL)) w).2).1 = true then
              ((true, (lib.ResolveReference base linkURL).Host == base.Host ||
                  (lib.ResolveReference base linkURL).Host == "", false),
                (lib.httpGet (lib.urlString (lib.ResolveReference base linkURL))
                  (lib.httpHead (lib.urlString (lib.ResolveReference base linkURL)) w).2).2)
            else
              ((true, (lib.ResolveReference base linkURL).Host == base.Host ||
                  (lib.ResolveReference base linkURL).Host == "", true),
                (lib.httpGet (lib.urlString (lib.ResolveReference base linkURL))
                  (lib.httpHead (lib.urlString (lib.ResolveReference base linkURL)) w).2).2)
          else
            ((true, (lib.ResolveReference base linkURL).Host == base.Host ||
                (lib.ResolveReference base linkURL).Host == "", true),
              (lib.httpHead (lib.urlString (lib.ResolveReference base linkURL)) w).2) := by
  by_cases hfrag : (strings.TrimSpace a.Val == "" ||
      strings.HasPrefix (strings.TrimSpace a.Val) "#") = true
  · rw [isLinkTagAttrs, if_pos hk, if_pos hfrag]
  · rw [isLinkTagAttrs, if_pos hk, if_neg hfrag]

theorem isLinkTag_fragment (lib : Lib σ) (n : Node) (base : URL) (w : σ)
    (hd : strings.ToLower n.Data = "a") (hf : isFragmentLink n = true) :
    isLinkTag lib n base w = ((true, true, true), w) := by
  rw [isLinkTag_eq, if_pos hd]
  unfold isFragmentLink at hf
  cases h : firstHref n with
  | none => rw [h] at hf; cases hf
  | some a =>
    rw [h] at hf
    simp only at hf ⊢
    rw [isLinkTagAttrs_single lib base a w (firstHref_key n a h), if_pos hf]

theorem isLinkTag_noHref (lib : Lib σ) (n : Node) (base : URL) (w : σ)
    (h : isAnchorWithHref n = false) (hty : n.Typ = NodeType.ElementNode) :
    isLinkTag lib n base w = ((false, false, false), w) := by
  rw [isLinkTag_eq]
  by_cases hd : strings.ToLower n.Data = "a"
  · rw [if_pos hd]
    have hany : n.Attr.any (fun a => strings.ToLower a.Key == "href") = false := by
      unfold isAnchorWithHref at h
      simpa [hty, hd] using h
    have hnone : firstHref n = none := by
      unfold firstHref
      rw [List.find?_eq_none]
      intro a ha
      have := List.any_eq_false.mp hany a ha
      simpa using this
    rw [hnone]
  · rw [if_neg hd]

theorem checkNode_world (lib : Lib σ) (n : Node) (dom : DOMAnalysis) (url : URL) (w : σ) :
    (checkNode lib n dom url w).2.2 =
      if n.Typ = NodeType.ElementNode then (isLinkTag lib n url w).2 else w := by
  unfold checkNode
  split <;> rfl

theorem isAnchorWithHref_data (n : Node) (h : isAnchorWithHref n = true) :
    strings.ToLower n.Data = "a" := by
  unfold isAnchorWithHref at h
  simp only [Bool.and_eq_true, beq_iff_eq] at h
  exact h.1.2

/-- A visit of a node that is no anchor with `href`, or whose address is a fragment,
issues no request; a fragment link adds one internal link. -/
theorem walkStep_fragment (lib : Lib σ) (url : URL) (st : (IntMap × Links) × DOMAnalysis × σ)
    (n : Node) (h : isAnchorWithHref n = true → isFragmentLink n = true) :
    (walkStep lib url st n).1.2 =
        ⟨st.1.2.Inaccessible, st.1.2.External,
          st.1.2.Internal + (if isAnchorWithHref n = true then 1 else 0)⟩ ∧
      (walkStep lib url st n).2.2 = st.2.2 := by
  simp only [walkStep, mergeChild, checkNode_links, checkNode_world]
  by_cases ha : isAnchorWithHref n = true
  · have hl := isLinkTag_fragment lib n url st.2.2 (isAnchorWithHref_data n ha) (h ha)
    simp [ha, hl, isAnchorWithHref_element n ha]
  · have hf : isAnchorWithHref n = false := by simpa using ha
    by_cases hty : n.Typ = NodeType.ElementNode
    · simp [hf, hty, isLinkTag_noHref lib n url st.2.2 hf hty]
    · simp [hf, hty]

theorem fold_fragment (lib : Lib σ) (url : URL) (l : List Node)
    (h : ∀ n ∈ l, isAnchorWithHref n = true → isFragmentLink n = true) :
    ∀ st : (IntMap × Links) × DOMAnalysis × σ,
      (l.foldl (walkStep lib url) st).1.2 =
          ⟨st.1.2.Inaccessible, st.1.2.External,
            st.1.2.Internal + ((l.filter isAnchorWithHref).length : Int)⟩ ∧
        (l.foldl (walkStep lib url) st).2.2 = st.2.2 := by
  induction l with
  | nil => intro st; simp
  | cons n l ih =>
    intro st
    rw [List.foldl_cons]
    obtain ⟨e1, e2⟩ := ih (fun m hm => h m (List.mem_cons_of_mem _ hm)) (walkStep lib url st n)
    obtain ⟨f1, f2⟩ := walkStep_fragment lib url st n (h n (List.mem_cons_self _ _))
    rw [e1, e2, f1, f2]
    refine ⟨?_, rfl⟩
    by_cases ha : isAnchorWithHref n = true
    · simp [ha, List.filter_cons]; omega
    · simp [ha, List.filter_cons]

theorem requestFailed_eq_false (r : Except String Response) :
    requestFailed r = false ↔ ∃ resp, r = .ok resp ∧ resp.StatusCode < 400 := by
  cases r with
  | error e => simp [requestFailed]
  | ok resp => simp [requestFailed]

theorem isLinkTag_parsed (lib : Lib σ) (n : Node) (base : URL) (w : σ) (a : Attribute)
    (linkURL : URL) (hd : strings.ToLower n.Data = "a") (hf : firstHref n = some a)
    (hne : strings.TrimSpace a.Val ≠ "")
    (hh : strings.HasPrefix (strings.TrimSpace a.Val) "#" = false)
    (hp : lib.urlParse (strings.TrimSpace a.Val) = .ok linkURL) :
    isLinkTag lib n base w =
      if requestFailed
          (lib.httpHead (lib.urlString (lib.ResolveReference base linkURL)) w).1 = true then
        ((true, (lib.ResolveReference base linkURL).Host == base.Host ||
            (lib.ResolveReference base linkURL).Host == "",
            !requestFailed
              (lib.httpGet (lib.urlString (lib.ResolveReference base linkURL))
                (lib.httpHead (lib.urlString (lib.ResolveReference base linkURL)) w).2).1),
          (lib.httpGet (lib.urlString (lib.ResolveReference base linkURL))
            (lib.httpHead (lib.urlString (lib.ResolveReference base linkURL)) w).2).2)
      else
        ((true, (lib.ResolveReference base linkURL).Host == base.Host ||
            (lib.ResolveReference base linkURL).Host == "", true),
          (lib.httpHead (lib.urlString (lib.ResolveReference base linkURL)) w).2) := by
  have hfrag : ¬ (strings.TrimSpace a.Val == "" ||
      strings.HasPrefix (strings.TrimSpace a.Val) "#") = true := by
    simp [hne, hh]
  rw [isLinkTag_eq, if_pos hd, hf]
  simp only
  rw [isLinkTagAttrs_single lib base a w (firstHref_key n a hf), if_neg hfrag, hp]
  simp only
  split
  · split
    · rename_i h2; rw [h2]; rfl
    · rename_i h2; rw [(Bool.not_eq_true _).mp h2]; rfl
  · rfl

theorem isTitleElement_tagged (n : Node) (h : isTitleElement n = true) :
    isTitleTagged n = true := by
  unfold isTitleElement at h
  unfold isTitleTagged
  simp only [Bool.and_eq_true] at h ⊢
  exact h.1

theorem preorderList_sum (f : Node → Int) (cs : List Node) :
    ((preorderList cs).map f).sum = (cs.map (fun c => ((preorder c).map f).sum)).sum := by
  induction cs with
  | nil => simp [preorderList]
  | cons c cs ih => simp [preorderList, ih]

theorem reordered_sum (f : Node → Int) (hf : IsLocal f) (t1 t2 : Node) (h : Reordered t1 t2) :
    ((preorder t1).map f).sum = ((preorder t2).map f).sum := by
  refine Reordered.rec
    (motive_1 := fun x y _ => ((preorder x).map f).sum = ((preorder y).map f).sum)
    (motive_2 := fun xs ys _ => ((preorderList xs).map f).sum = ((preorderList ys).map f).sum)
    ?_ ?_ ?_ ?_ ?_ h
  · intro t d a cs ds _ ih
    simp only [preorder, List.map_cons, List.sum_cons, ih, hf t d a cs ds]
  · rfl
  · intro c d cs ds _ _ ih1 ih2
    simp only [preorderList, List.map_append, List.sum_append, ih1, ih2]
  · intro a b cs
    simp only [preorderList, List.map_append, List.sum_append]
    omega
  · intro xs ys zs _ _ ih1 ih2
    exact ih1.trans ih2


theorem filter_length_sum (p : Node → Bool) (l : List Node) :
    ((l.filter p).length : Int) = (l.map (fun n => if p n = true then (1 : Int) else 0)).sum := by
  induction l with
  | nil => simp
  | cons n l ih =>
    by_cases h : p n = true
    · simp [List.filter_cons, h, ← ih]; omega
    · simp [List.filter_cons, h, ← ih]

theorem traverse_value (lib : Lib σ) (url : URL) (n : Node) (dom : DOMAnalysis) (w : σ) (L : Int) :
    (traverse lib url n dom w).1.1.value L =
      ((preorder n).map (fun m => if countsAt L m = true then (1 : Int) else 0)).sum := by
  rw [← filter_length_sum, IntMap.value, traverse_map]
  split
  · rename_i h; simp [h]
  · simp

theorem traverse_map_of_value (lib : Lib σ) (url : URL) (n : Node) (dom : DOMAnalysis) (w : σ)
    (L : Int) :
    (traverse lib url n dom w).1.1 L =
      if (traverse lib url n dom w).1.1.value L = 0 then none
      else some ((traverse lib url n dom w).1.1.value L) := by
  rw [IntMap.value, traverse_map]
  split
  · simp
  · rename_i h
    have : ¬ (((preorder n).filter (countsAt L)).length : Int) = 0 := by omega
    simp [this]

theorem checkNode_value (lib : Lib σ) (n : Node) (dom : DOMAnalysis) (url : URL) (w : σ) (L : Int) :
    (checkNode lib n dom url w).1.1.value L = if countsAt L n = true then 1 else 0 := by
  have h := walkStep_map lib url ((IntMap.empty, ⟨0, 0, 0⟩), dom, w) n L
  simp only [walkStep, mergeChild_zero] at h
  rw [IntMap.value, h]
  split <;> simp [IntMap.empty]

theorem countsAt_local (L : Int) : IsLocal (fun m => if countsAt L m = true then (1 : Int) else 0) :=
  fun _ _ _ _ _ => rfl

theorem isLinkTag_stateless (lib : Lib σ) (hs : Stateless lib) (n : Node) (url : URL) (w w0 : σ) :
    (isLinkTag lib n url w).1 = (isLinkTag lib n url w0).1 := by
  rw [isLinkTag_eq, isLinkTag_eq]
  by_cases hd : strings.ToLower n.Data = "a"
  · rw [if_pos hd, if_pos hd]
    cases hf : firstHref n with
    | none => rfl
    | some a =>
      simp only
      rw [isLinkTagAttrs_single lib url a w (firstHref_key n a hf),
        isLinkTagAttrs_single lib url a w0 (firstHref_key n a hf)]
      by_cases hfrag : (strings.TrimSpace a.Val == "" ||
          strings.HasPrefix (strings.TrimSpace a.Val) "#") = true
      · rw [if_pos hfrag, if_pos hfrag]
      · rw [if_neg hfrag, if_neg hfrag]
        cases lib.urlParse (strings.TrimSpace a.Val) with
        | error e => rfl
        | ok linkURL =>
          simp only
          rw [(hs (lib.urlString (lib.ResolveReference url linkURL)) w w0).1,
            (hs (lib.urlString (lib.ResolveReference url linkURL))
              (lib.httpHead (lib.urlString (lib.ResolveReference url linkURL)) w).2
              (lib.httpHead (lib.urlString (lib.ResolveReference url linkURL)) w0).2).2]
          split
          · split <;> rfl
          · rfl
  · rw [if_neg hd, if_neg hd]

theorem checkNode_links_stateless (lib : Lib σ) (hs : Stateless lib) (n : Node)
    (dom dom0 : DOMAnalysis) (url : URL) (w w0 : σ) :
    (checkNode lib n dom url w).1.2 = (checkNode lib n dom0 url w0).1.2 := by
  rw [checkNode_links, checkNode_links, isLinkTag_stateless lib hs n url w w0]

theorem checkNode_links_local (lib : Lib σ) (dom : DOMAnalysis) (url : URL) (w : σ)
    (t : NodeType) (d : String) (a : List Attribute) (cs ds : List Node) :
    (checkNode lib (.mk t d a cs) dom url w).1.2 = (checkNode lib (.mk t d a ds) dom url w).1.2 := by
  rw [checkNode_links, checkNode_links]
  rfl

theorem fold_links_stateless (lib : Lib σ) (hs : Stateless lib) (url : URL) (dom0 : DOMAnalysis)
    (w0 : σ) (l : List Node) :
    ∀ st : (IntMap × Links) × DOMAnalysis × σ,
      (l.foldl (walkStep lib url) st).1.2 =
        ⟨st.1.2.Inaccessible +
            (l.map (fun m => (checkNode lib m dom0 url w0).1.2.Inaccessible)).sum,
          st.1.2.External + (l.map (fun m => (checkNode lib m dom0 url w0).1.2.External)).sum,
          st.1.2.Internal + (l.map (fun m => (checkNode lib m dom0 url w0).1.2.Internal)).sum⟩ := by
  induction l with
  | nil => intro st; simp
  | cons n l ih =>
    intro st
    rw [List.foldl_cons, ih]
    simp only [walkStep, mergeChild, List.map_cons, List.sum_cons,
      checkNode_links_stateless lib hs n st.2.1 dom0 url st.2.2 w0, add_assoc]

theorem traverse_links_stateless (lib : Lib σ) (hs : Stateless lib) (url : URL)
    (dom dom0 : DOMAnalysis) (w w0 : σ) (n : Node) :
    (traverse lib url n dom w).1.2 =
      ⟨((preorder n).map (fun m => (checkNode lib m dom0 url w0).1.2.Inaccessible)).sum,
        ((preorder n).map (fun m => (checkNode lib m dom0 url w0).1.2.External)).sum,
        ((preorder n).map (fun m => (checkNode lib m dom0 url w0).1.2.Internal)).sum⟩ := by
  rw [traverse_eq_fold, fold_links_stateless lib hs url dom0 w0]
  simp

theorem demoLib_stateless : Stateless demoLib := by
  intro u w w1
  constructor
  · simp only [demoLib]
    split
    · rfl
    · split
      · rfl
      · split <;> rfl
  · simp only [demoLib]
    split
    · rfl
    · split
      · rfl
      · split
        · rfl
        · split <;> rfl

theorem pageLinks_reordered : Reordered pageLinksFirst pageLinksLast :=
  Reordered.node _ _ _
    (ReorderedList.trans
      (ReorderedList.cons
        (Reordered.node _ _ _ (ReorderedList.cons (Reordered.node _ _ _ ReorderedList.nil)
          ReorderedList.nil))
        (ReorderedList.cons (Reordered.node _ _ _ (ReorderedList.swap _ _ _)) ReorderedList.nil))
      (ReorderedList.swap _ _ _))

theorem mem_literal (s x : List Char) : x ∈ (literal s).matches' ↔ x = s := by
  induction s generalizing x with
  | nil => rw [literal, RegularExpression.matches'_epsilon, Language.mem_one]
  | cons c cs ih =>
    rw [literal, RegularExpression.matches'_mul, Language.mem_mul,
      RegularExpression.matches'_char]
    constructor
    · rintro ⟨a, ha, b, hb, rfl⟩
      have ha1 : a = [c] := ha
      rw [ha1, (ih b).mp hb]
      rfl
    · rintro rfl
      exact ⟨[c], rfl, cs, (ih cs).mpr rfl, rfl⟩

theorem mem_star_oneOf (l x : List Char) :
    x ∈ (RegularExpression.star (oneOf l)).matches' ↔ ∀ c ∈ x, c ∈ l := by
  rw [RegularExpression.matches'_star, Language.mem_kstar]
  constructor
  · rintro ⟨L, rfl, hL⟩ c hc
    obtain ⟨y, hy, hcy⟩ := List.mem_flatten.mp hc
    obtain ⟨d, hd, rfl⟩ := (mem_oneOf l y).mp (hL y hy)
    rw [List.mem_singleton] at hcy
    rw [hcy]
    exact hd
  · intro h
    refine ⟨x.map (fun c => [c]), ?_, ?_⟩
    · clear h
      induction x with
      | nil => rfl
      | cons c cs ih => rw [List.map_cons, List.flatten_cons, ← ih]; rfl
    · intro y hy
      obtain ⟨c, hc, rfl⟩ := List.mem_map.mp hy
      exact (mem_oneOf l [c]).mpr ⟨c, h c hc, rfl⟩

theorem mem_star_star_oneOf (l x : List Char) :
    x ∈ (RegularExpression.star (RegularExpression.star (oneOf l))).matches' ↔
      ∀ c ∈ x, c ∈ l := by
  rw [RegularExpression.matches'_star, RegularExpression.matches'_star, kstar_idem,
    ← RegularExpression.matches'_star, mem_star_oneOf]

theorem mem_plus_oneOf (l x : List Char) :
    x ∈ (oneOf l * RegularExpression.star (oneOf l)).matches' ↔ x ≠ [] ∧ ∀ c ∈ x, c ∈ l := by
  rw [RegularExpression.matches'_mul, Language.mem_mul]
  constructor
  · rintro ⟨a, ha, b, hb, rfl⟩
    obtain ⟨c, hc, rfl⟩ := (mem_oneOf l a).mp ha
    refine ⟨by simp, ?_⟩
    intro d hd
    rcases List.mem_append.mp hd with h | h
    · rw [List.mem_singleton] at h; rw [h]; exact hc
    · exact (mem_star_oneOf l b).mp hb d h
  · rintro ⟨hne, hall⟩
    cases x with
    | nil => exact absurd rfl hne
    | cons c cs =>
      exact ⟨[c], (mem_oneOf l [c]).mpr ⟨c, hall c (List.mem_cons_self _ _), rfl⟩, cs,
        (mem_star_oneOf l cs).mpr (fun d hd => hall d (List.mem_cons_of_mem _ hd)), rfl⟩

theorem mem_opt (P : RegularExpression Char) (x : List Char) :
    x ∈ (1 + P).matches' ↔ x = [] ∨ x ∈ P.matches' := by
  rw [RegularExpression.matches'_add, Language.mem_add, RegularExpression.matches'_epsilon,
    Language.mem_one]

theorem mem_opt_oneOf (l x : List Char) :
    x ∈ (1 + oneOf l).matches' ↔ x.length ≤ 1 ∧ ∀ c ∈ x, c ∈ l := by
  rw [mem_opt, mem_oneOf]
  constructor
  · rintro (rfl | ⟨c, hc, rfl⟩)
    · simp
    · simp [hc]
  · rintro ⟨hl, hall⟩
    match x, hl, hall with
    | [], _, _ => exact Or.inl rfl
    | [c], _, hall => exact Or.inr ⟨c, hall c (List.mem_singleton_self c), rfl⟩
    | _ :: _ :: _, hl, _ => simp at hl


theorem mem_pair_oneOf (l x : List Char) :
    x ∈ (oneOf l * oneOf l).matches' ↔ 2 ≤ x.length ∧ x.length ≤ 2 ∧ ∀ c ∈ x, c ∈ l := by
  rw [RegularExpression.matches'_mul, Language.mem_mul]
  constructor
  · rintro ⟨a, ha, b, hb, rfl⟩
    obtain ⟨c, hc, rfl⟩ := (mem_oneOf l a).mp ha
    obtain ⟨d, hd, rfl⟩ := (mem_oneOf l b).mp hb
    simp [hc, hd]
  · rintro ⟨h1, h2, hall⟩
    match x, h1, h2, hall with
    | [c, d], _, _, hall =>
      exact ⟨[c], (mem_oneOf l [c]).mpr ⟨c, hall c (by simp), rfl⟩, [d],
        (mem_oneOf l [d]).mpr ⟨d, hall d (by simp), rfl⟩, rfl⟩
    | [], h1, _, _ => simp at h1
    | [_], h1, _, _ => simp at h1
    | _ :: _ :: _ :: _, _, h2, _ => simp at h2

theorem mem_mul_opt (P : RegularExpression Char) (l : List Char) (lo hi : Nat) (hlh : lo ≤ hi)
    (hP : ∀ x, x ∈ P.matches' ↔ lo ≤ x.length ∧ x.length ≤ hi ∧ ∀ c ∈ x, c ∈ l)
    (x : List Char) :
    x ∈ (P * (1 + oneOf l)).matches' ↔ lo ≤ x.length ∧ x.length ≤ hi + 1 ∧ ∀ c ∈ x, c ∈ l := by
  rw [RegularExpression.matches'_mul, Language.mem_mul]
  constructor
  · rintro ⟨a, ha, b, hb, rfl⟩
    obtain ⟨h1, h2, h3⟩ := (hP a).mp ha
    obtain ⟨h4, h5⟩ := (mem_opt_oneOf l b).mp hb
    refine ⟨by rw [List.length_append]; omega, by rw [List.length_append]; omega, ?_⟩
    intro c hc
    rcases List.mem_append.mp hc with h | h
    · exact h3 c h
    · exact h5 c h
  · rintro ⟨h1, h2, hall⟩
    by_cases hle : x.length ≤ hi
    · exact ⟨x, (hP x).mpr ⟨h1, hle, hall⟩, [], (mem_opt_oneOf l []).mpr (by simp), by simp⟩
    · have hne : x ≠ [] := by
        intro e; rw [e] at hle; simp at hle
      refine ⟨x.dropLast, (hP _).mpr ⟨?_, ?_, ?_⟩, [x.getLast hne],
        (mem_opt_oneOf l _).mpr ⟨by simp, ?_⟩, List.dropLast_append_getLast hne⟩
      · rw [List.length_dropLast]; omega
      · rw [List.length_dropLast]; omega
      · intro c hc
        exact hall c (List.mem_of_mem_dropLast hc)
      · intro c hc
        rw [List.mem_singleton] at hc
        rw [hc]
        exact hall _ (List.getLast_mem hne)

/-- The part `([a-z\.]{2,6})` of the pattern. -/
theorem mem_tld (x : List Char) :
    x ∈ reTld.matches' ↔ 2 ≤ x.length ∧ x.length ≤ 6 ∧ ∀ c ∈ x, c ∈ tldChars :=
  mem_mul_opt _ tldChars 2 5 (by decide)
    (mem_mul_opt _ tldChars 2 4 (by decide)
      (mem_mul_opt _ tldChars 2 3 (by decide)
        (mem_mul_opt _ tldChars 2 2 (by decide) (mem_pair_oneOf tldChars)))) x

/-- The part `(https?:\/\/)?` of the pattern. -/
theorem mem_scheme (x : List Char) :
    x ∈ reScheme.matches' ↔ x = [] ∨ x = "http://".data ∨ x = "https://".data := by
  unfold reScheme
  rw [mem_opt, RegularExpression.matches'_mul, Language.mem_mul]
  constructor
  · rintro (h | ⟨a, ha, b, hb, rfl⟩)
    · exact Or.inl h
    · rw [RegularExpression.matches'_mul, Language.mem_mul] at ha
      obtain ⟨a1, ha1, a2, ha2, rfl⟩ := ha
      rw [mem_literal] at ha1 hb
      rw [mem_opt, RegularExpression.matches'_char] at ha2
      subst ha1 hb
      rcases ha2 with rfl | h2
      · exact Or.inr (Or.inl rfl)
      · have : a2 = ['s'] := h2
        subst this
        exact Or.inr (Or.inr rfl)
  · rintro (h | h | h)
    · exact Or.inl h
    · refine Or.inr ⟨"http".data, ?_, "://".data, (mem_literal _ _).mpr rfl, h.symm⟩
      rw [RegularExpression.matches'_mul, Language.mem_mul]
      exact ⟨"http".data, (mem_literal _ _).mpr rfl, [], (mem_opt _ _).mpr (Or.inl rfl), rfl⟩
    · refine Or.inr ⟨"https".data, ?_, "://".data, (mem_literal _ _).mpr rfl, h.symm⟩
      rw [RegularExpression.matches'_mul, Language.mem_mul]
      exact ⟨"http".data, (mem_literal _ _).mpr rfl, ['s'],
        (mem_opt _ _).mpr (Or.inr rfl), rfl⟩

/-- The language of the pattern of `ValidateURL`: an optional scheme and a body. -/
theorem mem_reValidateURL (x : List Char) :
    x ∈ reValidateURL.matches' ↔
      ∃ sch r : List Char, x = sch ++ r ∧
        (sch = [] ∨ sch = "http://".data ∨ sch = "https://".data) ∧ IsURLBody r := by
  unfold reValidateURL
  simp only [RegularExpression.matches'_mul, Language.mem_mul]
  constructor
  · rintro ⟨a5, ⟨a4, ⟨a3, ⟨a2, ⟨sch, hsch, host, hhost, rfl⟩, dot, hdot, rfl⟩, tld, htld, rfl⟩,
      path, hpath, rfl⟩, tail, htail, rfl⟩
    rw [mem_scheme] at hsch
    rw [reHost, mem_plus_oneOf] at hhost
    rw [RegularExpression.matches'_char] at hdot
    have hdot1 : dot = ['.'] := hdot
    subst hdot1
    rw [mem_tld] at htld
    rw [rePath, mem_star_star_oneOf] at hpath
    rw [mem_opt, RegularExpression.matches'_char] at htail
    refine ⟨sch, host ++ '.' :: tld ++ (path ++ tail), by simp, hsch,
      host, tld, path ++ tail, rfl, hhost.1, hhost.2, htld.1, htld.2.1, htld.2.2, ?_⟩
    intro c hc
    rcases List.mem_append.mp hc with h | h
    · exact hpath c h
    · rcases htail with rfl | ht
      · simp at h
      · have ht1 : tail = ['/'] := ht
        rw [ht1, List.mem_singleton] at h
        rw [h]
        decide
  · rintro ⟨sch, r, rfl, hsch, host, tld, path, rfl, hne, hhost, h2, h6, htld, hpath⟩
    exact ⟨sch ++ host ++ ['.'] ++ tld ++ path,
      ⟨sch ++ host ++ ['.'] ++ tld,
        ⟨sch ++ host ++ ['.'],
          ⟨sch ++ host, ⟨sch, (mem_scheme sch).mpr hsch, host,
            (mem_plus_oneOf _ _).mpr ⟨hne, hhost⟩, rfl⟩, ['.'], rfl, rfl⟩,
          tld, (mem_tld tld).mpr ⟨h2, h6, htld⟩, rfl⟩,
        path, (mem_star_star_oneOf _ _).mpr hpath, rfl⟩,
      [], (mem_opt _ _).mpr (Or.inl rfl), by simp⟩

theorem ValidateURL_iff (s : String) :
    ValidateURL s = true ↔
      ∃ sch r : List Char, s.data = sch ++ r ∧
        (sch = [] ∨ sch = "http://".data ∨ sch = "https://".data) ∧ IsURLBody r := by
  unfold ValidateURL regexp.MatchWhole
  rw [RegularExpression.rmatch_iff_matches', mem_reValidateURL]


theorem beginsCoreFrom_of_shape (a b : Char) (rest : List Char) (ha : a ∈ tldChars)
    (hb : b ∈ tldChars) (host : List Char) :
    ∀ seen : Bool, (seen = true ∨ host ≠ []) → (∀ c ∈ host, c ∈ hostChars) →
      beginsCoreFrom seen (host ++ '.' :: a :: b :: rest) = true := by
  induction host with
  | nil =>
    intro seen hs _
    have hseen : seen = true := by
      rcases hs with h | h
      · exact h
      · exact absurd rfl h
    simp [beginsCoreFrom, hseen, ha, hb]
  | cons c cs ih =>
    intro seen _ hall
    have hc := hall c (List.mem_cons_self _ _)
    have := ih true (Or.inl rfl) (fun d hd => hall d (List.mem_cons_of_mem _ hd))
    simp [beginsCoreFrom, hc, this]

theorem beginsCore_of_body (r : List Char) (h : IsURLBody r) : beginsCore r = true := by
  obtain ⟨host, tld, path, rfl, hne, hhost, h2, _, htld, _⟩ := h
  match tld, h2, htld with
  | a :: b :: t, _, htld =>
    have := beginsCoreFrom_of_shape a b (t ++ path) (htld a (by simp)) (htld b (by simp)) host
      false (Or.inr hne) hhost
    simpa [beginsCore] using this
  | [], h2, _ => simp at h2
  | [_], h2, _ => simp at h2

theorem body_chars (r : List Char) (h : IsURLBody r) :
    '.' ∈ r ∧ ∀ c ∈ r, c ∈ hostChars ∨ c ∈ pathChars := by
  obtain ⟨host, tld, path, rfl, _, hhost, _, _, htld, hpath⟩ := h
  refine ⟨by simp, ?_⟩
  intro c hc
  simp only [List.append_assoc, List.cons_append, List.mem_append, List.mem_cons] at hc
  rcases hc with h | h | h | h
  · exact Or.inl (hhost c h)
  · rw [h]; exact Or.inl (by decide)
  · have := htld c h
    refine Or.inl ?_
    simp only [tldChars, List.mem_append] at this
    rcases this with h1 | h1
    · simp only [hostChars, List.mem_append]; exact Or.inl (Or.inr h1)
    · rw [List.mem_singleton] at h1; rw [h1]; decide
  · exact Or.inr (hpath c h)

theorem body_no_colon (r : List Char) (h : IsURLBody r) : ':' ∉ r := by
  intro hc
  rcases (body_chars r h).2 ':' hc with h1 | h1
  · revert h1; decide
  · revert h1; decide

theorem stripScheme_scheme (sch r : List Char)
    (hsch : sch = [] ∨ sch = "http://".data ∨ sch = "https://".data) (hr : ':' ∉ r) :
    stripScheme (sch ++ r) = r := by
  rcases hsch with rfl | rfl | rfl
  · have h1 : "https://".data.isPrefixOf r = false := by
      rw [Bool.eq_false_iff]
      intro h
      obtain ⟨t, rfl⟩ := List.isPrefixOf_iff_prefix.mp h
      exact hr (by simp)
    have h2 : "http://".data.isPrefixOf r = false := by
      rw [Bool.eq_false_iff]
      intro h
      obtain ⟨t, rfl⟩ := List.isPrefixOf_iff_prefix.mp h
      exact hr (by simp)
    simp only [stripScheme, List.nil_append, h1, h2]
    rfl
  · have h1 : "https://".data.isPrefixOf ("http://".data ++ r) = false := by
      simp [List.isPrefixOf]
    have h2 : "http://".data.isPrefixOf ("http://".data ++ r) = true := by
      rw [List.isPrefixOf_iff_prefix]; exact List.prefix_append _ _
    simp only [stripScheme, h1, h2]
    rfl
  · have h1 : "https://".data.isPrefixOf ("https://".data ++ r) = true := by
      rw [List.isPrefixOf_iff_prefix]; exact List.prefix_append _ _
    simp only [stripScheme, h1]
    rfl

/-- The rejection criterion: an address none of whose readings (as it is, or after a
leading `http://`, or after a leading `https://`) begins with the mandatory part is
rejected. -/
theorem ValidateURL_false_of_core (s : String) (h0 : beginsCore s.data = false)
    (h1 : ∀ r, s.data = "http://".data ++ r → beginsCore r = false)
    (h2 : ∀ r, s.data = "https://".data ++ r → beginsCore r = false) :
    ValidateURL s = false := by
  rw [Bool.eq_false_iff]
  intro h
  obtain ⟨sch, r, hs, hsch, hbody⟩ := (ValidateURL_iff s).mp h
  have hb := beginsCore_of_body r hbody
  rcases hsch with rfl | rfl | rfl
  · rw [hs, List.nil_append, hb] at h0; cases h0
  · rw [h1 r hs] at hb; cases hb
  · rw [h2 r hs] at hb; cases hb

theorem ValidateURL_false_of_no_dot (s : String) (h : '.' ∉ s.data) : ValidateURL s = false := by
  rw [Bool.eq_false_iff]
  intro hv
  obtain ⟨sch, r, hs, _, hbody⟩ := (ValidateURL_iff s).mp hv
  exact h (by rw [hs]; exact List.mem_append_right _ (body_chars r hbody).1)

theorem ValidateURL_false_of_colon (s : String) (h : ':' ∈ stripScheme s.data) :
    ValidateURL s = false := by
  rw [Bool.eq_false_iff]
  intro hv
  obtain ⟨sch, r, hs, hsch, hbody⟩ := (ValidateURL_iff s).mp hv
  rw [hs, stripScheme_scheme sch r hsch (body_no_colon r hbody)] at h
  exact body_no_colon r hbody h

/-! ## Theorems -/

/-- **C1.** For every document tree and every level `L` in 1..6, the `Headings` of
`analyseDOM` has an entry with level `L` and count `c` exactly when `c > 0` is the
number of element nodes of the tree whose tag equals `h<L>` up to case; the counts add
up to the number of `h1`..`h6` elements of the tree; and a node that is not an
element, or whose tag is `h0`, `h7`, `hr` or `h10`, adds nothing to the counts. -/
theorem heading_counts (lib : Lib σ) (tree : Node) (base : URL) (w : σ) (L : Int)
    (hlo : 1 ≤ L) (hhi : L ≤ 6) :
    ∃ da, (analyseDOM lib (.ok tree) base w).1 = .ok da ∧
      (∀ c : Int, (∃ h ∈ da.Headings, h.Level = L ∧ h.Count = c) ↔
        (c = (headingElements L tree : Int) ∧ 0 < c)) ∧
      (da.Headings.map Heading.Count).sum
        = (((preorder tree).filter isAnyHeadingElement).length : Int) ∧
      (∀ (n : Node) (dom : DOMAnalysis) (w1 : σ),
        (n.Typ ≠ NodeType.ElementNode ∨ strings.ToLower n.Data ∈ ["h0", "h7", "hr", "h10"]) →
          (checkNode lib n dom base w1).1.1 = IntMap.empty) := by
  obtain ⟨da, hda, hh⟩ := analyseDOM_headings lib tree base w
  refine ⟨da, hda, ?_, ?_, ?_⟩
  · intro c
    have hcnt : ((preorder tree).filter (countsAt L)).length = headingElements L tree := by
      unfold headingElements
      congr 1
      apply List.filter_congr
      intro n _
      exact countsAt_eq L hlo hhi n
    rw [hh]
    constructor
    · rintro ⟨h, hmem, hl, hc⟩
      rw [List.mem_filterMap] at hmem
      obtain ⟨L1, _, hL1⟩ := hmem
      split at hL1
      · simp at hL1
      · rename_i hz
        simp only [Option.some.injEq] at hL1
        subst hL1
        simp only at hl hc
        subst hl
        rw [hcnt] at hz hc
        omega
    · rintro ⟨hc, hpos⟩
      have hz : ¬ ((preorder tree).filter (countsAt L)).length = 0 := by
        rw [hcnt]; omega
      refine ⟨⟨headingTag L, L, c⟩, ?_, rfl, rfl⟩
      rw [List.mem_filterMap]
      refine ⟨L, ?_, ?_⟩
      · have : L = 1 ∨ L = 2 ∨ L = 3 ∨ L = 4 ∨ L = 5 ∨ L = 6 := by omega
        rcases this with rfl | rfl | rfl | rfl | rfl | rfl <;> simp
      · rw [hcnt] at hz
        simp [hz, hcnt, hc]
  · rw [hh, headings_sum (fun L => ((preorder tree).filter (countsAt L)).length),
      counted_total]
  · intro n dom w1 hn
    rw [checkNode_map]
    rcases hn with hn | hn
    · simp [hn]
    · have : (isHeadingTag n).2 = false := by
        rw [isHeadingTag_eq]
        simp only [List.mem_cons, List.mem_singleton, List.not_mem_nil, or_false] at hn
        rcases hn with h | h | h | h <;> rw [h] <;> decide
      simp [this]

/-- Witness of **C1** on the document of scenario A at level 2, where the tree has
two elements `h2` (one written `H2`). -/
theorem heading_counts_witness :
    (1 : Int) ≤ 2 ∧ (2 : Int) ≤ 6 ∧ headingElements 2 docA = 2 ∧
      ∃ da, (analyseDOM demoLib (.ok docA) demoBase 0).1 = .ok da ∧
        (∀ c : Int, (∃ h ∈ da.Headings, h.Level = 2 ∧ h.Count = c) ↔
          (c = (headingElements 2 docA : Int) ∧ 0 < c)) :=
  ⟨by decide, by decide, by decide,
    (heading_counts demoLib docA demoBase 0 2 (by decide) (by decide)).imp
      (fun _ h => ⟨h.1, h.2.1⟩)⟩

/-- **C2.** For every document tree, the `Headings` of `analyseDOM` is strictly
ascending by level, has no level twice, and every entry has its level in 1..6, a
count of at least 1 and the tag `h` followed by the decimal level. -/
theorem headings_ascending (lib : Lib σ) (tree : Node) (base : URL) (w : σ) :
    ∃ da, (analyseDOM lib (.ok tree) base w).1 = .ok da ∧
      da.Headings.Pairwise (fun a b => a.Level < b.Level) ∧
      (da.Headings.map Heading.Level).Nodup ∧
      ∀ h ∈ da.Headings, 1 ≤ h.Level ∧ h.Level ≤ 6 ∧ 1 ≤ h.Count ∧
        h.Tag = "h" ++ toString h.Level := by
  obtain ⟨da, hda, hh⟩ := analyseDOM_headings lib tree base w
  have hsorted : da.Headings.Pairwise (fun a b => a.Level < b.Level) := by
    rw [hh]
    refine List.Pairwise.filterMap (R := fun a b : Int => a < b) _ ?_ (by decide)
    intro a a1 hlt b hb b1 hb1
    split at hb <;> simp at hb
    split at hb1 <;> simp at hb1
    subst hb hb1
    exact hlt
  refine ⟨da, hda, hsorted, ?_, ?_⟩
  · rw [List.Nodup, List.pairwise_map]
    exact hsorted.imp (fun h => ne_of_lt h)
  · intro h hmem
    rw [hh, List.mem_filterMap] at hmem
    obtain ⟨L, hL, hf⟩ := hmem
    split at hf
    · simp at hf
    · rename_i hz
      simp only [Option.some.injEq] at hf
      subst hf
      have : L = 1 ∨ L = 2 ∨ L = 3 ∨ L = 4 ∨ L = 5 ∨ L = 6 := by simpa using hL
      refine ⟨by simp only; omega, by simp only; omega, by simp only; omega, rfl⟩

/-- **C3.** For every document tree, the `Title` of `analyseDOM` is the text of the
first child of the last element in pre-order whose tag is `title` up to case and
whose first child is a text node, and the empty string when there is no such
element; on a tree with two such elements the second one wins.  The tag is compared
after `strings.ToLower`, as the code does, so that `TITLE` and also `tİtle` (with
U+0130, which Go lower-cases to `i`) are title tags. -/
theorem title_last_wins (lib : Lib σ) (tree : Node) (base : URL) (w : σ) :
    (∃ da, (analyseDOM lib (.ok tree) base w).1 = .ok da ∧
      da.Title =
        match ((preorder tree).filter isTitleElement).getLast? with
        | some n => firstChildText n
        | none => "") ∧
    (∃ da, (analyseDOM lib (.ok docTwoTitles) base w).1 = .ok da ∧ da.Title = "Second") ∧
    (∃ da, (analyseDOM lib (.ok docDottedTitle) base w).1 = .ok da ∧ da.Title = "Dotted") := by
  refine ⟨?_, ?_, ?_⟩
  · obtain ⟨da, hda, ht⟩ := analyseDOM_title lib tree base w
    refine ⟨da, hda, ?_⟩
    rw [ht]
    cases ((preorder tree).filter isTitleElement).getLast? <;> rfl
  · obtain ⟨da, hda, ht⟩ := analyseDOM_title lib docTwoTitles base w
    refine ⟨da, hda, ?_⟩
    rw [ht]
    decide
  · obtain ⟨da, hda, ht⟩ := analyseDOM_title lib docDottedTitle base w
    refine ⟨da, hda, ?_⟩
    rw [ht]
    decide

/-- **C4.** For every document tree, the `LoginForm` of `analyseDOM` is true exactly
when the tree has a `form` element whose subtree has an `input` of type `password`
and also an `input` of type `email` or `text` with an identity hint in its `name`,
`id` or `placeholder`, or an `input` of type `submit` or `button`, or a `button`
element.  A tree whose forms have no password input leaves the flag false, the
form of scenario C (a password input and a submit control only) sets it, and the
search form of the test suite (a text input and a submit, no password) does not.
Tags, keys and values are compared after `strings.ToLower`, as the code does: a form
with a password input tagged `İNPUT` and a text input with the placeholder `EMAİL`
(U+0130, which Go lower-cases to `i`) sets the flag. -/
theorem login_form_iff (lib : Lib σ) (tree : Node) (base : URL) (w : σ) :
    (∃ da, (analyseDOM lib (.ok tree) base w).1 = .ok da ∧
      (da.LoginForm = true ↔
        ∃ form ∈ preorder tree, isFormElement form = true ∧
          (∃ p ∈ preorder form, isPasswordInput p = true) ∧
          ((∃ i ∈ preorder form, isIdentityInput i = true) ∨
            (∃ s ∈ preorder form, isSubmitControl s = true))) ∧
      ((∀ form ∈ preorder tree, isFormElement form = true →
          ∀ p ∈ preorder form, isPasswordInput p = false) → da.LoginForm = false)) ∧
    (∃ da, (analyseDOM lib (.ok docPasswordSearch) base w).1 = .ok da ∧ da.LoginForm = true) ∧
    (∃ da, (analyseDOM lib (.ok docSearchForm) base w).1 = .ok da ∧ da.LoginForm = false) ∧
    (∃ da, (analyseDOM lib (.ok docDottedLogin) base w).1 = .ok da ∧ da.LoginForm = true) := by
  refine ⟨?_, ?_, ?_, ?_⟩
  · obtain ⟨da, hda, hl⟩ := analyseDOM_login lib tree base w
    have hiff : da.LoginForm = true ↔
        ∃ form ∈ preorder tree, isFormElement form = true ∧
          (∃ p ∈ preorder form, isPasswordInput p = true) ∧
          ((∃ i ∈ preorder form, isIdentityInput i = true) ∨
            (∃ s ∈ preorder form, isSubmitControl s = true)) := by
      rw [hl]
      simp [loginHeuristic, List.any_eq_true]
    refine ⟨da, hda, hiff, ?_⟩
    intro hno
    cases hd : da.LoginForm with
    | false => rfl
    | true =>
      obtain ⟨form, hmem, hform, ⟨p, hp, hpw⟩, _⟩ := hiff.mp hd
      have := hno form hmem hform p hp
      rw [this] at hpw
      cases hpw
  · obtain ⟨da, hda, hl⟩ := analyseDOM_login lib docPasswordSearch base w
    refine ⟨da, hda, ?_⟩
    rw [hl]
    decide
  · obtain ⟨da, hda, hl⟩ := analyseDOM_login lib docSearchForm base w
    refine ⟨da, hda, ?_⟩
    rw [hl]
    decide
  · obtain ⟨da, hda, hl⟩ := analyseDOM_login lib docDottedLogin base w
    refine ⟨da, hda, ?_⟩
    rw [hl]
    decide

/-- **C5.** For every document tree, base address and behaviour of the network, the
tally of `analyseDOM` has `Internal + External` equal to the number of `a` elements
that carry an `href` attribute (tag and key up to case); a node that is not such an
anchor, in particular an anchor without `href`, adds nothing to any of the three
counters; and two anchors with the same address are both counted. -/
theorem links_total (lib : Lib σ) (tree : Node) (base : URL) (w : σ) :
    (∃ da, (analyseDOM lib (.ok tree) base w).1 = .ok da ∧
      da.Links.Internal + da.Links.External =
        (((preorder tree).filter isAnchorWithHref).length : Int)) ∧
    (∀ (n : Node) (dom : DOMAnalysis) (w1 : σ), isAnchorWithHref n = false →
      (checkNode lib n dom base w1).1.2 = ⟨0, 0, 0⟩) ∧
    (∃ da, (analyseDOM lib (.ok docSameLinkTwice) base w).1 = .ok da ∧
      da.Links.Internal + da.Links.External = 2) := by
  refine ⟨⟨_, analyseDOM_ok lib tree base w, (traverse_links lib base tree _ w).1⟩, ?_,
    ⟨_, analyseDOM_ok lib docSameLinkTwice base w, ?_⟩⟩
  · intro n dom w1 hn
    rw [checkNode_links, hn]
    simp
  · rw [(traverse_links lib base docSameLinkTwice _ w).1]
    decide

/-- **C6.** For every document tree, base address and behaviour of the network, the
tally of `analyseDOM`, and the tally `traverse` returns on any tree from any state,
has `Inaccessible ≤ Internal + External` and no negative counter. -/
theorem inaccessible_bounded (lib : Lib σ) (tree : Node) (base : URL) (w : σ) :
    (∃ da, (analyseDOM lib (.ok tree) base w).1 = .ok da ∧
      da.Links.Inaccessible ≤ da.Links.Internal + da.Links.External ∧
      0 ≤ da.Links.Inaccessible ∧ 0 ≤ da.Links.External ∧ 0 ≤ da.Links.Internal) ∧
    (∀ (sub : Node) (dom : DOMAnalysis) (w1 : σ),
      (traverse lib base sub dom w1).1.2.Inaccessible ≤
          (traverse lib base sub dom w1).1.2.Internal + (traverse lib base sub dom w1).1.2.External ∧
        0 ≤ (traverse lib base sub dom w1).1.2.Inaccessible ∧
        0 ≤ (traverse lib base sub dom w1).1.2.External ∧
        0 ≤ (traverse lib base sub dom w1).1.2.Internal) := by
  have key : ∀ (sub : Node) (dom : DOMAnalysis) (w1 : σ),
      (traverse lib base sub dom w1).1.2.Inaccessible ≤
          (traverse lib base sub dom w1).1.2.Internal + (traverse lib base sub dom w1).1.2.External ∧
        0 ≤ (traverse lib base sub dom w1).1.2.Inaccessible ∧
        0 ≤ (traverse lib base sub dom w1).1.2.External ∧
        0 ≤ (traverse lib base sub dom w1).1.2.Internal := by
    intro sub dom w1
    obtain ⟨h1, h2, h3, h4⟩ := (traverse_links lib base sub dom w1).2
    exact ⟨h4, h1, h2, h3⟩
  exact ⟨⟨_, analyseDOM_ok lib tree base w, key tree _ w⟩, key⟩

/-- **C7.** A doctype token with data `d` is classified by `extractHTMLVersion` as
`HTML 5` if `d` is exactly `html`; otherwise `HTML 4.01` if `d` contains `html 4.01`
up to case; otherwise `XHTML` if `d` contains `xhtml` up to case; otherwise
`Unknown Doctype: ` followed by `d`.  An identifier that contains both `html 4.01`
and `xhtml` is classified `HTML 4.01`, and the upper-case `HTML` is not `HTML 5`. -/
theorem doctype_classification (d : String) (rest : List Token) :
    extractHTMLVersion (⟨TokenType.DoctypeToken, d⟩ :: rest) =
        (if d = "html" then "HTML 5"
        else if strings.Contains (strings.ToLower d) "html 4.01" = true then "HTML 4.01"
        else if strings.Contains (strings.ToLower d) "xhtml" = true then "XHTML"
        else "Unknown Doctype: " ++ d) ∧
      (strings.Contains (strings.ToLower d) "html 4.01" = true →
        strings.Contains (strings.ToLower d) "xhtml" = true →
          extractHTMLVersion (⟨TokenType.DoctypeToken, d⟩ :: rest) = "HTML 4.01") ∧
      extractHTMLVersion (⟨TokenType.DoctypeToken, "HTML"⟩ :: rest) = "Unknown Doctype: HTML" := by
  refine ⟨extractHTMLVersion_doctype d rest, ?_, ?_⟩
  · intro h4 _
    rw [extractHTMLVersion_doctype, if_pos h4, if_neg]
    rintro rfl
    revert h4
    decide
  · rw [extractHTMLVersion_doctype]
    decide

/-- Witness of **C7**: an XHTML 1.0 identifier that also names `HTML 4.01`. -/
theorem doctype_classification_witness :
    extractHTMLVersion
        [⟨TokenType.DoctypeToken, "html PUBLIC \"-//W3C//DTD XHTML 1.0 (HTML 4.01)//EN\""⟩]
      = "HTML 4.01" :=
  (doctype_classification "html PUBLIC \"-//W3C//DTD XHTML 1.0 (HTML 4.01)//EN\"" []).2.1
    (by decide) (by decide)

/-- **C8.** The result of `extractHTMLVersion` is decided by the first doctype token
alone: after any tokens `pre` that are neither doctype nor error tokens, a doctype
token with data `d` followed by any tokens gives the result of that token on its
own; an error token (or the end of the stream) after `pre` gives `No Doctype Found`,
whatever follows, a later doctype token included. -/
theorem first_doctype_decides (pre : List Token)
    (hpre : ∀ t ∈ pre, t.Typ ≠ TokenType.DoctypeToken ∧ t.Typ ≠ TokenType.ErrorToken) :
    (∀ (d : String) (post : List Token),
      extractHTMLVersion (pre ++ ⟨TokenType.DoctypeToken, d⟩ :: post) =
        extractHTMLVersion [⟨TokenType.DoctypeToken, d⟩]) ∧
    (∀ (e : Token) (post : List Token), e.Typ = TokenType.ErrorToken →
      extractHTMLVersion (pre ++ e :: post) = "No Doctype Found") ∧
    (∀ (msg d : String) (post : List Token),
      extractHTMLVersion (pre ++ ⟨TokenType.ErrorToken, msg⟩ :: ⟨TokenType.DoctypeToken, d⟩ :: post)
        = "No Doctype Found") ∧
    extractHTMLVersion pre = "No Doctype Found" := by
  refine ⟨?_, ?_, ?_, ?_⟩
  · intro d post
    rw [extractHTMLVersion_skip pre hpre, extractHTMLVersion_doctype, extractHTMLVersion_doctype]
  · intro e post he
    rw [extractHTMLVersion_skip pre hpre, extractHTMLVersion, he]
  · intro msg d post
    rw [extractHTMLVersion_skip pre hpre, extractHTMLVersion]
  · have := extractHTMLVersion_skip pre hpre []
    rw [List.append_nil] at this
    rw [this, extractHTMLVersion]

/-- Witness of **C8** on white space, a comment and a start tag before the doctype. -/
theorem first_doctype_decides_witness :
    (∀ t ∈ tokensBeforeDoctype,
      t.Typ ≠ TokenType.DoctypeToken ∧ t.Typ ≠ TokenType.ErrorToken) ∧
    extractHTMLVersion (tokensBeforeDoctype ++
        ⟨TokenType.DoctypeToken, "html"⟩ :: [⟨TokenType.TextToken, "x"⟩]) =
      extractHTMLVersion [⟨TokenType.DoctypeToken, "html"⟩] :=
  ⟨by decide, (first_doctype_decides tokensBeforeDoctype (by decide)).1 "html" _⟩

/-- **C9.** When the fetch returns a response with status code at least 400,
`ReadPageContent` returns no report and the error
`HTTP error: received status code <code> (<text>)`, which starts with
`HTTP error: received status code <code>`; the body is not read and no further
request is made.  When the status is below 400 the status check lets the response
through: an error, if any, is not an `HTTP error`, and a readable body that parses
gives a report. -/
theorem status_error (lib : Lib σ) (urlStr : String) (w w1 : σ) (resp : Response)
    (hget : lib.httpGet (normaliseURL urlStr) w = (.ok resp, w1)) :
    (400 ≤ resp.StatusCode →
      ReadPageContent lib urlStr w = (.error (statusError lib resp.StatusCode), w1) ∧
      strings.HasPrefix (statusError lib resp.StatusCode)
        ("HTTP error: received status code " ++ toString resp.StatusCode) = true) ∧
    (resp.StatusCode < 400 →
      (∀ msg, (ReadPageContent lib urlStr w).1 = .error msg →
        strings.HasPrefix msg "HTTP error" = false) ∧
      (∀ body u tree, resp.Body = .ok body → lib.urlParse (normaliseURL urlStr) = .ok u →
        lib.htmlParse body = .ok tree →
        ∃ r, (ReadPageContent lib urlStr w).1 = .ok r ∧
          r.HTMLVersion = extractHTMLVersion (lib.htmlTokens body))) := by
  refine ⟨fun hcode => ⟨ReadPageContent_status lib urlStr w w1 resp hget hcode,
    statusError_prefix lib _⟩, fun hcode => ⟨?_, ?_⟩⟩
  · intro msg hmsg
    rw [ReadPageContent_pass lib urlStr w w1 resp hget hcode] at hmsg
    split at hmsg
    · simp only [Except.error.injEq] at hmsg
      subst hmsg
      exact hasPrefix_head_ne _ _ 'e' 'H' _ _ (by rw [String.data_append]; rfl) rfl (by decide)
    · split at hmsg
      · simp only [Except.error.injEq] at hmsg
        subst hmsg
        rfl
      · split at hmsg
        · simp only [Except.error.injEq] at hmsg
          subst hmsg
          exact hasPrefix_head_ne _ _ 'e' 'H' _ _ (by rw [String.data_append]; rfl) rfl
            (by decide)
        · cases hmsg
  · intro body u tree hbody hu htree
    rw [ReadPageContent_pass lib urlStr w w1 resp hget hcode]
    simp only [hbody, hu, htree, analyseDOM_ok]
    exact ⟨_, rfl, rfl⟩

/-- Witness of **C9** (scenario D): the fetch of `gone.test` answers 404. -/
theorem status_error_witness :
    demoLib.httpGet (normaliseURL "gone.test") 0 = (.ok ⟨404, .ok "gone"⟩, 1) ∧
      (400 : Int) ≤ 404 ∧
      ReadPageContent demoLib "gone.test" 0 = (.error (statusError demoLib 404), 1) ∧
      statusError demoLib 404 = "HTTP error: received status code 404 (Not Found)" :=
  ⟨rfl, by decide,
    ((status_error demoLib "gone.test" 0 1 ⟨404, .ok "gone"⟩ rfl).1 (by decide)).1, by decide⟩

/-- **C10, as the claim states it, fails.**  The cause returned for `lost.test`
contains `connection refused`, but it also contains `no such host`, which is tested
first: the error is `domain not found: https://lost.test`, which does not contain
`connection refused`. -/
theorem fetch_error_counterexample :
    demoLib.httpGet (normaliseURL "lost.test") 0 =
        (.error "dial tcp: lookup lost.test: no such host (resolver: connection refused)", 1) ∧
      strings.Contains "dial tcp: lookup lost.test: no such host (resolver: connection refused)"
        "connection refused" = true ∧
      errorMessage (ReadPageContent demoLib "lost.test" 0).1 =
        some "domain not found: https://lost.test" ∧
      strings.Contains "domain not found: https://lost.test" "connection refused" = false :=
  ⟨rfl, by decide, by decide, by decide⟩

/-- **C10 (amended).** When the fetch fails with cause message `err`,
`ReadPageContent` returns no report and one error chosen by `err`:
`domain not found: <address>` (the address fetched) if `err` contains `no such host`;
otherwise `connection refused: server is not responding` if it contains
`connection refused`; otherwise `connection timeout: server took too long to respond`
if it contains `timeout`; otherwise `unknown error while fetching URL: <err>`.  A
cause that contains `connection refused` and not `no such host` yields an error that
contains `connection refused`. -/
theorem fetch_error_mapping (lib : Lib σ) (urlStr : String) (w w1 : σ) (err : String)
    (hget : lib.httpGet (normaliseURL urlStr) w = (.error err, w1)) :
    ReadPageContent lib urlStr w =
        (.error
          (if strings.Contains err "no such host" = true then
            "domain not found: " ++ normaliseURL urlStr
          else if strings.Contains err "connection refused" = true then
            "connection refused: server is not responding"
          else if strings.Contains err "timeout" = true then
            "connection timeout: server took too long to respond"
          else "unknown error while fetching URL: " ++ err), w1) ∧
      (strings.Contains err "connection refused" = true →
        strings.Contains err "no such host" = false →
          ∃ msg, (ReadPageContent lib urlStr w).1 = .error msg ∧
            strings.Contains msg "connection refused" = true) := by
  have h := ReadPageContent_fetchError lib urlStr w w1 err hget
  refine ⟨by rw [h]; rfl, ?_⟩
  intro hr hn
  refine ⟨"connection refused: server is not responding", ?_, by decide⟩
  rw [h]
  simp [fetchError, hr, hn]

/-- Witness of **C10 (amended)** (the test `Network error`): the fetch of `down.test` is refused. -/
theorem fetch_error_mapping_witness :
    demoLib.httpGet (normaliseURL "down.test") 0 =
        (.error "dial tcp 192.0.2.1:443: connect: connection refused", 1) ∧
      ∃ msg, (ReadPageContent demoLib "down.test" 0).1 = .error msg ∧
        strings.Contains msg "connection refused" = true :=
  ⟨rfl, (fetch_error_mapping demoLib "down.test" 0 1
    "dial tcp 192.0.2.1:443: connect: connection refused" rfl).2 (by decide) (by decide)⟩

/-- **C11.** The address `ReadPageContent` fetches is the input itself when it starts
with `http://` or `https://`, and `https://` followed by the input otherwise; the
fetched address starts with one of the two schemes, and normalising twice equals
normalising once.  With a library that records its requests, the only request of
`ReadPageContent` on a refused fetch is a `GET` of the normalised address. -/
theorem fetched_address (s : String) :
    (normaliseURL s =
      if strings.HasPrefix s "http://" = true ∨ strings.HasPrefix s "https://" = true then s
      else "https://" ++ s) ∧
    (strings.HasPrefix (normaliseURL s) "http://" = true ∨
      strings.HasPrefix (normaliseURL s) "https://" = true) ∧
    normaliseURL (normaliseURL s) = normaliseURL s ∧
    (ReadPageContent logLib s []).2 = ["GET " ++ normaliseURL s] ∧
    (∀ (lib : Lib σ) (w : σ), ReadPageContent lib (normaliseURL s) w = ReadPageContent lib s w) := by
  have h1 := normaliseURL_eq s
  have h2 : strings.HasPrefix (normaliseURL s) "http://" = true ∨
      strings.HasPrefix (normaliseURL s) "https://" = true := by
    rw [h1]
    split
    · assumption
    · exact Or.inr (hasPrefix_append _ _)
  have h3 : normaliseURL (normaliseURL s) = normaliseURL s := by
    rw [normaliseURL_eq (normaliseURL s), if_pos h2]
  refine ⟨h1, h2, h3, rfl, ?_⟩
  intro lib w
  unfold ReadPageContent
  rw [h3]

/-- **C12.** An anchor whose first `href` value, trimmed, is empty or starts with `#`
is reported by `isLinkTag` as a link that is internal and working, for every base
address and library, and the state of the network is left as it was: no request is
made.  A page all of whose anchors with `href` are of this kind has `External` 0,
`Inaccessible` 0 and `Internal` the number of these anchors, again without a request;
for scenario B the tally is `Internal` 1, `External` 0, `Inaccessible` 0. -/
theorem fragment_link (lib : Lib σ) (n : Node) (base : URL) (w : σ)
    (hd : strings.ToLower n.Data = "a") (hf : isFragmentLink n = true) :
    isLinkTag lib n base w = ((true, true, true), w) ∧
    (∀ tree : Node,
      (∀ m ∈ preorder tree, isAnchorWithHref m = true → isFragmentLink m = true) →
        ∃ da, analyseDOM lib (.ok tree) base w = (.ok da, w) ∧
          da.Links = ⟨0, 0, (((preorder tree).filter isAnchorWithHref).length : Int)⟩) ∧
    (∃ da, analyseDOM lib (.ok docFragmentOnly) base w = (.ok da, w) ∧ da.Links = ⟨0, 0, 1⟩) := by
  have page : ∀ tree : Node,
      (∀ m ∈ preorder tree, isAnchorWithHref m = true → isFragmentLink m = true) →
        ∃ da, analyseDOM lib (.ok tree) base w = (.ok da, w) ∧
          da.Links = ⟨0, 0, (((preorder tree).filter isAnchorWithHref).length : Int)⟩ := by
    intro tree ht
    obtain ⟨e1, e2⟩ := fold_fragment lib base (preorder tree) ht
      ((IntMap.empty, ⟨0, 0, 0⟩), ⟨"", [], ⟨0, 0, 0⟩, false⟩, w)
    rw [← traverse_eq_fold] at e1 e2
    refine ⟨_, Prod.ext (analyseDOM_ok lib tree base w) e2, ?_⟩
    simp only [e1]
    simp
  refine ⟨isLinkTag_fragment lib n base w hd hf, page, ?_⟩
  obtain ⟨da, h1, h2⟩ := page docFragmentOnly (by decide)
  exact ⟨da, h1, by rw [h2]; decide⟩

/-- Witness of **C12**: an upper-case anchor whose first `href` is `#section-2`
with white space around it. -/
theorem fragment_link_witness :
    strings.ToLower anchorFragment.Data = "a" ∧ isFragmentLink anchorFragment = true ∧
      isLinkTag demoLib anchorFragment demoBase 0 = ((true, true, true), 0) :=
  ⟨by decide, by decide, (fragment_link demoLib anchorFragment demoBase 0 (by decide) (by decide)).1⟩

/-- **C13.** An anchor whose first `href`, trimmed, is not empty, does not start with
`#` and fails to parse is classified by `isLinkTag` as a link that is external and
not working, for every base address, and no request is made; the visit of such an
element adds 1 to `External`, 1 to `Inaccessible` and 0 to `Internal`. -/
theorem unparsable_link (lib : Lib σ) (n : Node) (base : URL) (w : σ) (a : Attribute)
    (err : String) (hd : strings.ToLower n.Data = "a") (hf : firstHref n = some a)
    (hne : strings.TrimSpace a.Val ≠ "")
    (hh : strings.HasPrefix (strings.TrimSpace a.Val) "#" = false)
    (hp : lib.urlParse (strings.TrimSpace a.Val) = .error err) :
    isLinkTag lib n base w = ((true, false, false), w) ∧
    (n.Typ = NodeType.ElementNode → ∀ dom : DOMAnalysis,
      (checkNode lib n dom base w).1.2 = ⟨1, 1, 0⟩ ∧ (checkNode lib n dom base w).2.2 = w) := by
  have hfrag : ¬ (strings.TrimSpace a.Val == "" ||
      strings.HasPrefix (strings.TrimSpace a.Val) "#") = true := by
    simp [hne, hh]
  have hl : isLinkTag lib n base w = ((true, false, false), w) := by
    rw [isLinkTag_eq, if_pos hd, hf]
    simp only
    rw [isLinkTagAttrs_single lib base a w (firstHref_key n a hf), if_neg hfrag, hp]
  refine ⟨hl, fun hty dom => ?_⟩
  have hanchor : isAnchorWithHref n = true := by
    rw [← isLinkTag_isLink lib n base w hty, hl]
  rw [checkNode_links, checkNode_world, if_pos hanchor, if_pos hty, hl]
  simp

/-- Witness of **C13**: the address `about us.html` does not parse in the example library. -/
theorem unparsable_link_witness :
    isLinkTag demoLib anchorUnparsable demoBase 0 = ((true, false, false), 0) ∧
      (checkNode demoLib anchorUnparsable ⟨"", [], ⟨0, 0, 0⟩, false⟩ demoBase 0).1.2 = ⟨1, 1, 0⟩ :=
  ⟨(unparsable_link demoLib anchorUnparsable demoBase 0 (attr "href" " about us.html ")
      "invalid character in address" (by decide) (by decide) (by decide) (by decide) rfl).1,
    ((unparsable_link demoLib anchorUnparsable demoBase 0 (attr "href" " about us.html ")
      "invalid character in address" (by decide) (by decide) (by decide) (by decide) rfl).2
      (by decide) _).1⟩

/-- **C14, as the claim states it, fails.**  The addresses `#` and the empty address
parse, and from the base `down.test` the `HEAD` request and the `GET` request to the
resolved address are both refused; yet `isLinkTag` reports the two anchors as working
(and internal) and makes no request: an address that is empty or starts with `#` is
answered before it is parsed. -/
theorem probe_outcome_counterexample :
    (firstHref anchorTop = some (attr "href" "#") ∧
      errorMessage (demoLib.urlParse (strings.TrimSpace "#")) = none ∧
      (∀ u, demoLib.urlParse (strings.TrimSpace "#") = .ok u →
        requestFailed
            (demoLib.httpHead (demoLib.urlString (demoLib.ResolveReference demoBaseDown u)) 0).1
          = true ∧
        requestFailed
            (demoLib.httpGet (demoLib.urlString (demoLib.ResolveReference demoBaseDown u))
              (demoLib.httpHead
                (demoLib.urlString (demoLib.ResolveReference demoBaseDown u)) 0).2).1
          = true) ∧
      isLinkTag demoLib anchorTop demoBaseDown 0 = ((true, true, true), 0)) ∧
    (firstHref anchorEmpty = some (attr "href" "") ∧
      errorMessage (demoLib.urlParse (strings.TrimSpace "")) = none ∧
      (∀ u, demoLib.urlParse (strings.TrimSpace "") = .ok u →
        requestFailed
            (demoLib.httpHead (demoLib.urlString (demoLib.ResolveReference demoBaseDown u)) 0).1
          = true ∧
        requestFailed
            (demoLib.httpGet (demoLib.urlString (demoLib.ResolveReference demoBaseDown u))
              (demoLib.httpHead
                (demoLib.urlString (demoLib.ResolveReference demoBaseDown u)) 0).2).1
          = true) ∧
      isLinkTag demoLib anchorEmpty demoBaseDown 0 = ((true, true, true), 0)) := by
  refine ⟨⟨by decide, by decide, ?_, by decide⟩, ⟨by decide, by decide, ?_, by decide⟩⟩
  · intro u hu
    have e : u = ⟨"", "", "#", "", ""⟩ := (Except.ok.inj hu).symm
    subst e
    exact ⟨by decide, by decide⟩
  · intro u hu
    have e : u = ⟨"", "", "", "", ""⟩ := (Except.ok.inj hu).symm
    subst e
    exact ⟨by decide, by decide⟩

/-- **C14 (amended).** For an anchor whose first `href`, trimmed of white space, is
not empty, does not start with `#` and parses, with `h` the outcome of the
`HEAD` request to the resolved address and `g` the outcome of the `GET` request to
the same address made after it: `isLinkTag` reports a link, working exactly when `h`
is a response with status below 400, or else `g` is one; internal exactly when the
resolved host is the base host or empty; the `GET` request is made only when `h` is
an error or has status 400 or more (otherwise the network is left in the state after
`HEAD`); and a failed probe yields no error: the link is reported not working, the
visit counts it as inaccessible and `analyseDOM` still returns a report. -/
theorem probe_outcome (lib : Lib σ) (n : Node) (base : URL) (w : σ) (a : Attribute)
    (linkURL : URL) (hd : strings.ToLower n.Data = "a") (hf : firstHref n = some a)
    (hne : strings.TrimSpace a.Val ≠ "")
    (hh : strings.HasPrefix (strings.TrimSpace a.Val) "#" = false)
    (hp : lib.urlParse (strings.TrimSpace a.Val) = .ok linkURL) :
    (isLinkTag lib n base w).1.1 = true ∧
    ((isLinkTag lib n base w).1.2.1 =
      ((lib.ResolveReference base linkURL).Host == base.Host ||
        (lib.ResolveReference base linkURL).Host == "")) ∧
    ((isLinkTag lib n base w).1.2.2 = true ↔
      (∃ resp, (lib.httpHead (lib.urlString (lib.ResolveReference base linkURL)) w).1 = .ok resp ∧
        resp.StatusCode < 400) ∨
      (requestFailed (lib.httpHead (lib.urlString (lib.ResolveReference base linkURL)) w).1 = true ∧
        ∃ resp, (lib.httpGet (lib.urlString (lib.ResolveReference base linkURL))
          (lib.httpHead (lib.urlString (lib.ResolveReference base linkURL)) w).2).1 = .ok resp ∧
          resp.StatusCode < 400)) ∧
    ((isLinkTag lib n base w).2 =
      if requestFailed
          (lib.httpHead (lib.urlString (lib.ResolveReference base linkURL)) w).1 = true then
        (lib.httpGet (lib.urlString (lib.ResolveReference base linkURL))
          (lib.httpHead (lib.urlString (lib.ResolveReference base linkURL)) w).2).2
      else (lib.httpHead (lib.urlString (lib.ResolveReference base linkURL)) w).2) ∧
    (n.Typ = NodeType.ElementNode → ∀ dom : DOMAnalysis,
      (checkNode lib n dom base w).1.2.Inaccessible =
        if (isLinkTag lib n base w).1.2.2 = true then 0 else 1) ∧
    (∀ tree : Node, ∃ da, (analyseDOM lib (.ok tree) base w).1 = .ok da) := by
  have hl := isLinkTag_parsed lib n base w a linkURL hd hf hne hh hp
  refine ⟨?_, ?_, ?_, ?_, ?_, fun tree => ⟨_, analyseDOM_ok lib tree base w⟩⟩
  · rw [hl]; split <;> rfl
  · rw [hl]; split <;> rfl
  · rw [hl]
    by_cases h1 : requestFailed
        (lib.httpHead (lib.urlString (lib.ResolveReference base linkURL)) w).1 = true
    · rw [if_pos h1]
      simp only [Bool.not_eq_true', requestFailed_eq_false]
      constructor
      · intro hg
        exact Or.inr ⟨h1, hg⟩
      · rintro (⟨resp, hr, hs⟩ | ⟨_, hg⟩)
        · have := (requestFailed_eq_false _).mpr ⟨resp, hr, hs⟩
          rw [this] at h1
          cases h1
        · exact hg
    · rw [if_neg h1]
      have h1f := (Bool.not_eq_true _).mp h1
      simp only [true_iff]
      exact Or.inl ((requestFailed_eq_false _).mp h1f)
  · rw [hl]; split <;> rfl
  · intro hty dom
    have hanchor : isAnchorWithHref n = true := by
      rw [← isLinkTag_isLink lib n base w hty, hl]
      split <;> rfl
    rw [checkNode_links, if_pos hanchor]

/-- Witness of **C14 (amended)**: on `get.test` the `HEAD` request answers 405 and the `GET`
request 200, so the link works after two requests; on `up.test` one request is
enough; on `down.test` both requests fail and the link is not working. -/
theorem probe_outcome_witness :
    (isLinkTag demoLib anchorGetOnly demoBase 0).1.2.2 = true ∧
      isLinkTag demoLib anchorGetOnly demoBase 0 = ((true, false, true), 2) ∧
      isLinkTag demoLib anchorUp demoBase 0 = ((true, true, true), 1) ∧
      isLinkTag demoLib anchorDown demoBase 0 = ((true, false, false), 2) :=
  ⟨(probe_outcome demoLib anchorGetOnly demoBase 0 (attr "href" "//get.test/")
      ⟨"", "get.test", "", "", ""⟩ (by decide) (by decide) (by decide) (by decide) rfl).2.2.1.mpr
      (Or.inr ⟨by decide, ⟨200, .ok ""⟩, rfl, by decide⟩),
    by decide, by decide, by decide⟩

/-- **C19.** The heading, title and login-form part of the walk is pure: two runs of
`analyseDOM` on the same tree, with any two libraries, network states and base
addresses, return the same `Title`, the same `Headings` and the same `LoginForm`.
The `Links` tally can differ: the page with two links to `/about` has no
inaccessible link from the base `up.test` and two from the base `down.test`. -/
theorem walk_pure {σ1 σ2 : Type} (lib1 : Lib σ1) (lib2 : Lib σ2) (tree : Node)
    (base1 base2 : URL) (w1 : σ1) (w2 : σ2) :
    (∃ d1 d2, (analyseDOM lib1 (.ok tree) base1 w1).1 = .ok d1 ∧
      (analyseDOM lib2 (.ok tree) base2 w2).1 = .ok d2 ∧
      d1.Title = d2.Title ∧ d1.Headings = d2.Headings ∧ d1.LoginForm = d2.LoginForm) ∧
    (∃ d1 d2, (analyseDOM demoLib (.ok docSameLinkTwice) demoBase 0).1 = .ok d1 ∧
      (analyseDOM demoLib (.ok docSameLinkTwice) demoBaseDown 0).1 = .ok d2 ∧
      d1.Links = ⟨0, 0, 2⟩ ∧ d2.Links = ⟨2, 0, 2⟩) := by
  constructor
  · obtain ⟨a1, ha1, ht1⟩ := analyseDOM_title lib1 tree base1 w1
    obtain ⟨a2, ha2, ht2⟩ := analyseDOM_title lib2 tree base2 w2
    obtain ⟨b1, hb1, hh1⟩ := analyseDOM_headings lib1 tree base1 w1
    obtain ⟨b2, hb2, hh2⟩ := analyseDOM_headings lib2 tree base2 w2
    obtain ⟨c1, hc1, hl1⟩ := analyseDOM_login lib1 tree base1 w1
    obtain ⟨c2, hc2, hl2⟩ := analyseDOM_login lib2 tree base2 w2
    have e1 : b1 = a1 := by rw [ha1] at hb1; exact (Except.ok.inj hb1).symm
    have e2 : c1 = a1 := by rw [ha1] at hc1; exact (Except.ok.inj hc1).symm
    have e3 : b2 = a2 := by rw [ha2] at hb2; exact (Except.ok.inj hb2).symm
    have e4 : c2 = a2 := by rw [ha2] at hc2; exact (Except.ok.inj hc2).symm
    subst e1 e2 e3 e4
    exact ⟨_, _, ha1, ha2, by rw [ht1, ht2], by rw [hh1, hh2], by rw [hl1, hl2]⟩
  · exact ⟨_, _, analyseDOM_ok _ _ _ _, analyseDOM_ok _ _ _ _, by decide, by decide⟩

/-- **C20, as the claim states it, fails.**  In this document the last title element
in pre-order has no children and an earlier one holds the text `First`; the claim
gives the empty string, `analyseDOM` gives `First`.  The same happens when the last
title element starts with an element instead of a text node. -/
theorem title_textless_counterexample :
    (((preorder docTitleThenEmpty).filter isTitleTagged).getLast?.map
        (fun n => n.children.length) = some 0) ∧
      (errorMessage (analyseDOM demoLib (.ok docTitleThenEmpty) demoBase 0).1 = none) ∧
      (∀ da, (analyseDOM demoLib (.ok docTitleThenEmpty) demoBase 0).1 = .ok da →
        da.Title = "First" ∧ da.Title ≠ "") ∧
      (∀ da, (analyseDOM demoLib (.ok docTitleThenMarkup) demoBase 0).1 = .ok da →
        da.Title = "First" ∧ da.Title ≠ "") := by
  refine ⟨by decide, by decide, ?_, ?_⟩
  · intro da hda
    rw [analyseDOM_ok] at hda
    have := Except.ok.inj hda
    subst this
    exact ⟨by decide, by decide⟩
  · intro da hda
    rw [analyseDOM_ok] at hda
    have := Except.ok.inj hda
    subst this
    exact ⟨by decide, by decide⟩

/-- **C20 (amended).** For every document tree (with or without a title element),
the `Title` of `analyseDOM` is the text of the last title element in pre-order whose
first child is a text node: a title element without children, or whose first child is
not a text node, leaves the earlier capture in place, whatever follows; and `Title`
is empty when no title element has a text node as first child.  It is empty in one
more case only: when the last title element with a text node as first child holds
the empty text. -/
theorem title_skips_textless (lib : Lib σ) (tree : Node) (base : URL) (w : σ) :
    ∃ da, (analyseDOM lib (.ok tree) base w).1 = .ok da ∧
      (∀ (pre post : List Node) (t : Node), preorder tree = pre ++ t :: post →
        isTitleElement t = true →
        (∀ m ∈ post, isTitleTagged m = true → isTitleElement m = false) →
          da.Title = firstChildText t) ∧
      ((∀ m ∈ preorder tree, isTitleTagged m = true → isTitleElement m = false) →
        da.Title = "") ∧
      (da.Title = "" ↔
        ∀ t ∈ ((preorder tree).filter isTitleElement).getLast?, firstChildText t = "") := by
  obtain ⟨da, hda, ht⟩ := analyseDOM_title lib tree base w
  refine ⟨da, hda, ?_, ?_, ?_⟩
  rotate_left 2
  · rw [ht]
    cases ((preorder tree).filter isTitleElement).getLast? with
    | none => simp
    | some t => simp
  · intro pre post t hsplit htitle hpost
    have hnone : post.filter isTitleElement = [] := by
      rw [List.filter_eq_nil_iff]
      intro m hm hmt
      have := hpost m hm (isTitleElement_tagged m hmt)
      rw [this] at hmt
      cases hmt
    rw [ht, hsplit, List.filter_append, List.filter_cons_of_pos htitle, hnone,
      List.getLast?_append]
    simp
  · intro hall
    have hnone : (preorder tree).filter isTitleElement = [] := by
      rw [List.filter_eq_nil_iff]
      intro m hm hmt
      have := hall m hm (isTitleElement_tagged m hmt)
      rw [this] at hmt
      cases hmt
    rw [ht, hnone]
    rfl

/-- Witness of **C20 (amended)**: the document has a title element, and the title
stays `First` after a title element without children; and a document whose only title
element holds an empty text node has a title element with a text first child and the
empty `Title`. -/
theorem title_skips_textless_witness :
    ((preorder docTitleThenEmpty).any isTitleTagged = true ∧
      ∃ da, (analyseDOM demoLib (.ok docTitleThenEmpty) demoBase 0).1 = .ok da ∧
        da.Title = "First") ∧
    ((preorder docTitleEmptyText).any isTitleElement = true ∧
      ∃ da, (analyseDOM demoLib (.ok docTitleEmptyText) demoBase 0).1 = .ok da ∧
        da.Title = "") :=
  ⟨⟨by decide,
    (title_skips_textless demoLib docTitleThenEmpty demoBase 0).imp
      (fun _ h => ⟨h.1, h.2.1
        [.mk NodeType.DocumentNode "" [] [el "html" [] [
          el "head" [] [el "title" [] [txt "First"]],
          el "body" [] [el "svg" [] [el "title" [] []]]]],
          el "html" [] [
          el "head" [] [el "title" [] [txt "First"]],
          el "body" [] [el "svg" [] [el "title" [] []]]],
          el "head" [] [el "title" [] [txt "First"]]]
        [txt "First", el "body" [] [el "svg" [] [el "title" [] []]],
          el "svg" [] [el "title" [] []], el "title" [] []]
        (el "title" [] [txt "First"]) rfl (by decide) (by decide)⟩)⟩,
   ⟨by decide,
    (title_skips_textless demoLib docTitleEmptyText demoBase 0).imp
      (fun _ h => ⟨h.1, h.2.2.2.mpr (fun t ht => by cases ht; rfl)⟩)⟩⟩

/-- **C18.** When the children of any nodes of a tree are reordered, `traverse`
returns the same heading histogram, from any state; and when the outcome of a request
depends on the address only, it returns the same link tally.  The histogram of a node
is its own contribution plus the pointwise sum of the histograms of its children,
and under the same condition so is the tally, the children taken in any order and
each walked on its own. -/
theorem reorder_invariant (lib : Lib σ) (url : URL) (t1 t2 : Node) (h : Reordered t1 t2)
    (dom1 dom2 : DOMAnalysis) (w1 w2 : σ) :
    (traverse lib url t1 dom1 w1).1.1 = (traverse lib url t2 dom2 w2).1.1 ∧
    (Stateless lib → (traverse lib url t1 dom1 w1).1.2 = (traverse lib url t2 dom2 w2).1.2) ∧
    (∀ (t : NodeType) (d : String) (a : List Attribute) (cs ds : List Node) (L : Int),
      ds.Perm cs →
        (traverse lib url (.mk t d a cs) dom1 w1).1.1.value L =
          (checkNode lib (.mk t d a cs) dom1 url w1).1.1.value L +
            (ds.map (fun c => (traverse lib url c dom2 w2).1.1.value L)).sum) ∧
    (Stateless lib →
      ∀ (t : NodeType) (d : String) (a : List Attribute) (cs ds : List Node), ds.Perm cs →
        (traverse lib url (.mk t d a cs) dom1 w1).1.2 =
          ⟨(checkNode lib (.mk t d a cs) dom1 url w1).1.2.Inaccessible +
              (ds.map (fun c => (traverse lib url c dom2 w2).1.2.Inaccessible)).sum,
            (checkNode lib (.mk t d a cs) dom1 url w1).1.2.External +
              (ds.map (fun c => (traverse lib url c dom2 w2).1.2.External)).sum,
            (checkNode lib (.mk t d a cs) dom1 url w1).1.2.Internal +
              (ds.map (fun c => (traverse lib url c dom2 w2).1.2.Internal)).sum⟩) := by
  refine ⟨?_, ?_, ?_, ?_⟩
  · funext L
    rw [traverse_map_of_value, traverse_map_of_value lib url t2, traverse_value, traverse_value,
      reordered_sum _ (countsAt_local L) t1 t2 h]
  · intro hs
    rw [traverse_links_stateless lib hs url dom1 dom1 w1 w1 t1,
      traverse_links_stateless lib hs url dom2 dom1 w2 w1 t2,
      reordered_sum _ (fun t d a cs ds => by
        rw [checkNode_links_local lib dom1 url w1 t d a cs ds]) t1 t2 h,
      reordered_sum _ (fun t d a cs ds => by
        rw [checkNode_links_local lib dom1 url w1 t d a cs ds]) t1 t2 h,
      reordered_sum _ (fun t d a cs ds => by
        rw [checkNode_links_local lib dom1 url w1 t d a cs ds]) t1 t2 h]
  · intro t d a cs ds L hp
    rw [(hp.map _).sum_eq, traverse_value, checkNode_value, preorder, List.map_cons,
      List.sum_cons, preorderList_sum]
    simp only [traverse_value]
  · intro hs t d a cs ds hp
    rw [(hp.map _).sum_eq, (hp.map _).sum_eq, (hp.map _).sum_eq,
      traverse_links_stateless lib hs url dom1 dom1 w1 w1, preorder]
    simp only [List.map_cons, List.sum_cons, preorderList_sum,
      fun n => traverse_links_stateless lib hs url dom2 dom1 w2 w1 n]

/-- Witness of **C18**: the page with its links first and the page with the children
of the body and of the heading swapped give the same histogram and, with the example
library, the same tally: two external links, one of them inaccessible. -/
theorem reorder_invariant_witness :
    (traverse demoLib demoBase pageLinksFirst ⟨"", [], ⟨0, 0, 0⟩, false⟩ 0).1.1 =
        (traverse demoLib demoBase pageLinksLast ⟨"", [], ⟨0, 0, 0⟩, false⟩ 0).1.1 ∧
      (traverse demoLib demoBase pageLinksFirst ⟨"", [], ⟨0, 0, 0⟩, false⟩ 0).1.2 =
        (traverse demoLib demoBase pageLinksLast ⟨"", [], ⟨0, 0, 0⟩, false⟩ 0).1.2 ∧
      (traverse demoLib demoBase pageLinksLast ⟨"", [], ⟨0, 0, 0⟩, false⟩ 0).1.2 = ⟨1, 2, 0⟩ :=
  ⟨(reorder_invariant demoLib demoBase pageLinksFirst pageLinksLast pageLinks_reordered
      _ _ 0 0).1,
    (reorder_invariant demoLib demoBase pageLinksFirst pageLinksLast pageLinks_reordered
      _ _ 0 0).2.1 demoLib_stateless,
    by decide⟩

/-- **C15.** `ValidateURL` accepts every text made of an optional scheme `http://` or
`https://`, a non-empty host of lower-case letters, digits, dots and hyphens, a dot, a
label of 2 to 6 lower-case letters, and an optional path: `/` followed by letters,
digits, underscores, slashes, dots, hyphens and spaces. -/
theorem validate_accepts (sch host tld path : List Char)
    (hsch : sch = [] ∨ sch = "http://".data ∨ sch = "https://".data)
    (hne : host ≠ []) (hhost : ∀ c ∈ host, c ∈ hostChars)
    (h2 : 2 ≤ tld.length) (h6 : tld.length ≤ 6) (htld : ∀ c ∈ tld, c ∈ lowerChars)
    (hpath : path = [] ∨ ∃ rest, path = '/' :: rest ∧ ∀ c ∈ rest, c ∈ pathChars) :
    ValidateURL ⟨sch ++ host ++ '.' :: tld ++ path⟩ = true := by
  rw [ValidateURL_iff]
  refine ⟨sch, host ++ '.' :: tld ++ path, by simp, hsch, host, tld, path, rfl, hne, hhost,
    h2, h6, ?_, ?_⟩
  · intro c hc
    simp only [tldChars, List.mem_append]
    exact Or.inl (htld c hc)
  · rcases hpath with rfl | ⟨rest, rfl, hrest⟩
    · simp
    · intro c hc
      rcases List.mem_cons.mp hc with h | h
      · rw [h]; decide
      · exact hrest c h

/-- Witness of **C15**: the five addresses named in the claim. -/
theorem validate_accepts_witness :
    ValidateURL "example.com" = true ∧ ValidateURL "www.example.com" = true ∧
      ValidateURL "http://example.co.uk" = true ∧
      ValidateURL "https://sub.example.com/path" = true ∧
      ValidateURL "https://example.com/" = true :=
  ⟨validate_accepts [] "example".data "com".data [] (by decide) (by decide) (by decide)
      (by decide) (by decide) (by decide) (Or.inl rfl),
    validate_accepts [] "www.example".data "com".data [] (by decide) (by decide) (by decide)
      (by decide) (by decide) (by decide) (Or.inl rfl),
    validate_accepts "http://".data "example.co".data "uk".data [] (by decide) (by decide)
      (by decide) (by decide) (by decide) (by decide) (Or.inl rfl),
    validate_accepts "https://".data "sub.example".data "com".data "/path".data (by decide)
      (by decide) (by decide) (by decide) (by decide) (by decide)
      (Or.inr ⟨"path".data, rfl, by decide⟩),
    validate_accepts "https://".data "example".data "com".data "/".data (by decide)
      (by decide) (by decide) (by decide) (by decide) (by decide)
      (Or.inr ⟨[], rfl, by decide⟩)⟩

/-- **C16, as the claim states it, fails.**  The address `https://example.com/` of
the test suite is accepted, although neither it nor `example.com/`, what is left
after the scheme, consists of a run of `[0-9a-z.-]`, a dot and at least two
characters of `[a-z.]`: the `/` that ends it belongs to the path. -/
theorem validate_rejects_counterexample :
    ValidateURL "https://example.com/" = true ∧
      isCore "https://example.com/".data = false ∧
      stripScheme "https://example.com/".data = "example.com/".data ∧
      isCore "example.com/".data = false :=
  ⟨(ValidateURL_iff _).mpr ⟨"https://".data, "example.com/".data, rfl, by decide,
      "example".data, "com".data, "/".data, rfl, by decide, by decide, by decide, by decide,
      by decide, by decide⟩,
    by decide, by decide, by decide⟩

/-- **C16 (amended).** `ValidateURL` rejects every text that, after removing at most
one leading `http://` or `https://`, does not begin with at least one character of
`[0-9a-z.-]`, then a dot, then two characters of `[a-z.]`.  It rejects the empty
text, every text without a dot, every text with a `:` outside such a leading scheme
(`htp://example.com`, `http:/example.com`), the host-less `http://.com` and
`http://example.c` with its one-letter final label. -/
theorem validate_rejects (s : String) (h0 : beginsCore s.data = false)
    (h1 : ∀ r, s.data = "http://".data ++ r → beginsCore r = false)
    (h2 : ∀ r, s.data = "https://".data ++ r → beginsCore r = false) :
    ValidateURL s = false ∧
    (∀ t : String, '.' ∉ t.data → ValidateURL t = false) ∧
    (∀ t : String, ':' ∈ stripScheme t.data → ValidateURL t = false) ∧
    ValidateURL "" = false ∧ ValidateURL "htp://example.com" = false ∧
    ValidateURL "http:/example.com" = false ∧ ValidateURL "http://.com" = false ∧
    ValidateURL "http://example.c" = false := by
  refine ⟨ValidateURL_false_of_core s h0 h1 h2, ValidateURL_false_of_no_dot,
    ValidateURL_false_of_colon, ValidateURL_false_of_no_dot _ (by decide),
    ValidateURL_false_of_colon _ (by decide), ValidateURL_false_of_colon _ (by decide), ?_, ?_⟩
  · refine ValidateURL_false_of_core _ (by decide) ?_ ?_
    · intro r hr
      have hr1 : "http://".data ++ ".com".data = "http://".data ++ r := hr
      have : r = ".com".data := (List.append_cancel_left hr1).symm
      rw [this]; decide
    · intro r hr
      have : "https://".data.isPrefixOf "http://.com".data = true := by
        rw [List.isPrefixOf_iff_prefix]; exact ⟨r, hr.symm⟩
      exact absurd this (by decide)
  · refine ValidateURL_false_of_core _ (by decide) ?_ ?_
    · intro r hr
      have hr1 : "http://".data ++ "example.c".data = "http://".data ++ r := hr
      have : r = "example.c".data := (List.append_cancel_left hr1).symm
      rw [this]; decide
    · intro r hr
      have : "https://".data.isPrefixOf "http://example.c".data = true := by
        rw [List.isPrefixOf_iff_prefix]; exact ⟨r, hr.symm⟩
      exact absurd this (by decide)

/-- Witness of **C16 (amended)**: `example` has no reading that begins with the mandatory part. -/
theorem validate_rejects_witness :
    beginsCore "example".data = false ∧ ValidateURL "example" = false :=
  ⟨by decide,
    (validate_rejects "example" (by decide)
      (fun r hr => by
        have : "http://".data.isPrefixOf "example".data = true := by
          rw [List.isPrefixOf_iff_prefix]; exact ⟨r, hr.symm⟩
        exact absurd this (by decide))
      (fun r hr => by
        have : "https://".data.isPrefixOf "example".data = true := by
          rw [List.isPrefixOf_iff_prefix]; exact ⟨r, hr.symm⟩
        exact absurd this (by decide))).1⟩

/-- **C17, as the claim states it, fails.**  `a.b.c` is accepted (host `a`, then the
segment `b.c` of the class `[a-z.]`), and the last label of its host part is the
single letter `c`; `example.museums` is accepted (segment `museum`, then `s` as path)
and its last label has seven letters. -/
theorem validate_tld_counterexample :
    ValidateURL "a.b.c" = true ∧ lastLabel (hostPart "a.b.c".data) = "c".data ∧
      isTldLabel (lastLabel (hostPart "a.b.c".data)) = false ∧
      ValidateURL "example.museums" = true ∧
      lastLabel (hostPart "example.museums".data) = "museums".data ∧
      isTldLabel (lastLabel (hostPart "example.museums".data)) = false :=
  ⟨(ValidateURL_iff _).mpr ⟨[], "a.b.c".data, rfl, by decide,
      "a".data, "b.c".data, [], rfl, by decide, by decide, by decide, by decide,
      by decide, by decide⟩,
    by decide, by decide,
    (ValidateURL_iff _).mpr ⟨[], "example.museums".data, rfl, by decide,
      "example".data, "museum".data, "s".data, rfl, by decide, by decide, by decide,
      by decide, by decide, by decide⟩,
    by decide, by decide⟩

/-- **C17 (amended).** `ValidateURL` requires a segment of 2 to 6 characters of
`[a-z.]` after a dot: every text it accepts is an optional `http://` or `https://`,
then a non-empty run of characters of `[0-9a-z.-]`, a dot, 2 to 6 characters of
`[a-z.]`, and then characters of `[/\w .-]` only. -/
theorem validate_requires_segment (s : String) (h : ValidateURL s = true) :
    ∃ sch host tld path : List Char, s.data = sch ++ (host ++ '.' :: tld ++ path) ∧
      (sch = [] ∨ sch = "http://".data ∨ sch = "https://".data) ∧
      host ≠ [] ∧ (∀ c ∈ host, c ∈ hostChars) ∧ 2 ≤ tld.length ∧ tld.length ≤ 6 ∧
      (∀ c ∈ tld, c ∈ tldChars) ∧ ∀ c ∈ path, c ∈ pathChars := by
  obtain ⟨sch, r, hs, hsch, host, tld, path, rfl, hrest⟩ := (ValidateURL_iff s).mp h
  exact ⟨sch, host, tld, path, hs, hsch, hrest⟩

/-- Witness of **C17 (amended)** on `a.bc`. -/
theorem validate_requires_segment_witness :
    ValidateURL "a.bc" = true ∧
      ∃ sch host tld path : List Char, "a.bc".data = sch ++ (host ++ '.' :: tld ++ path) ∧
        (sch = [] ∨ sch = "http://".data ∨ sch = "https://".data) ∧
        host ≠ [] ∧ (∀ c ∈ host, c ∈ hostChars) ∧ 2 ≤ tld.length ∧ tld.length ≤ 6 ∧
        (∀ c ∈ tld, c ∈ tldChars) ∧ ∀ c ∈ path, c ∈ pathChars :=
  ⟨by decide, validate_requires_segment "a.bc" (by decide)⟩

end SiteAnalyser
